import Mathlib

/-!
The Dexcom segment (`src/segments/dexcom.go`)

A shallow embedding of the Dexcom prompt segment: the trend-icon table, the
cache-backed retrieval of the newest glucose reading (`getResult`), the
availability check (`Enabled`) and the request built by `getDexcomAPIData`,
followed by theorems about them.

Conventions of the embedding.

* A Go `string` is a sequence of bytes; it is embedded as `GoString`, a list of
  natural numbers (each byte a number below 256).  String constants of the
  source are written `bytesOf "..."`, the UTF-8 bytes of the text.
* A Go `int` is embedded as an `Int`; where the 64-bit range matters (decoding a
  JSON number) the range check is explicit.
* A Go call either returns or panics: `Go α`.
* A pointer that may be `nil` is an `Option`; a `(value, error)` result is a pair
  of options.
-/

/-! ## Go strings -/

/-- A Go string: its bytes. -/
abbrev GoString := List Nat

/-- UTF-8 bytes of one Unicode code point (`utf8.EncodeRune` on a valid rune). -/
def utf8Encode (c : Nat) : List Nat :=
  if c < 0x80 then [c]
  else if c < 0x800 then [0xC0 + c / 64, 0x80 + c % 64]
  else if c < 0x10000 then [0xE0 + c / 4096, 0x80 + c / 64 % 64, 0x80 + c % 64]
  else [0xF0 + c / 262144, 0x80 + c / 4096 % 64, 0x80 + c / 64 % 64, 0x80 + c % 64]

/-- The Go string denoted by a string constant of the source: its UTF-8 bytes. -/
def bytesOf (s : String) : GoString :=
  s.data.flatMap (fun c => utf8Encode c.toNat)

/-! ## UTF-8 (`unicode/utf8`) -/

/-- `utf8.RuneError`, U+FFFD. -/
def RuneError : Nat := 0xFFFD

/-- The `first` and `acceptRanges` tables of `unicode/utf8`: for a lead byte, the width of the
sequence it starts and the range its second byte must lie in; `none` for a byte that starts none. -/
def leadInfo (b : Nat) : Option (Nat × Nat × Nat) :=
  if 0xC2 ≤ b ∧ b ≤ 0xDF then some (2, 0x80, 0xBF)
  else if b = 0xE0 then some (3, 0xA0, 0xBF)
  else if 0xE1 ≤ b ∧ b ≤ 0xEC then some (3, 0x80, 0xBF)
  else if b = 0xED then some (3, 0x80, 0x9F)
  else if 0xEE ≤ b ∧ b ≤ 0xEF then some (3, 0x80, 0xBF)
  else if b = 0xF0 then some (4, 0x90, 0xBF)
  else if 0xF1 ≤ b ∧ b ≤ 0xF3 then some (4, 0x80, 0xBF)
  else if b = 0xF4 then some (4, 0x80, 0x8F)
  else none

/-- A continuation byte, `locb ≤ b ≤ hicb`. -/
def isCont (b : Nat) : Bool := 0x80 ≤ b && b ≤ 0xBF

/-- `utf8.DecodeRune`: the first rune of `s` and its width in bytes; `(RuneError, 1)` when `s`
does not start with a well-formed sequence, `(RuneError, 0)` when `s` is empty. -/
def decodeRune (s : GoString) : Nat × Nat :=
  match s with
  | [] => (RuneError, 0)
  | s0 :: t =>
    if s0 < 0x80 then (s0, 1)
    else
      match leadInfo s0 with
      | none => (RuneError, 1)
      | some (sz, lo, hi) =>
        if t.length + 1 < sz then (RuneError, 1)
        else
          match t with
          | [] => (RuneError, 1)
          | s1 :: t1 =>
            if s1 < lo ∨ hi < s1 then (RuneError, 1)
            else if sz ≤ 2 then (s0 % 32 * 64 + s1 % 64, 2)
            else
              match t1 with
              | [] => (RuneError, 1)
              | s2 :: t2 =>
                if !isCont s2 then (RuneError, 1)
                else if sz ≤ 3 then (s0 % 16 * 4096 + s1 % 64 * 64 + s2 % 64, 3)
                else
                  match t2 with
                  | [] => (RuneError, 1)
                  | s3 :: _ =>
                    if !isCont s3 then (RuneError, 1)
                    else (s0 % 8 * 262144 + s1 % 64 * 4096 + s2 % 64 * 64 + s3 % 64, 4)

/-- `utf8.EncodeRune`: the bytes of rune `r`; a surrogate or a value beyond U+10FFFF is written
as `RuneError`. -/
def encodeRune (r : Nat) : GoString :=
  if (0xD800 ≤ r ∧ r ≤ 0xDFFF) ∨ 0x10FFFF < r then utf8Encode RuneError else utf8Encode r

/-- Loop of `utf8.ValidString` with explicit fuel. -/
def validUTF8Aux : Nat → GoString → Bool
  | 0, s => s.isEmpty
  | _ + 1, [] => true
  | fuel + 1, b :: t =>
    let rs := decodeRune (b :: t)
    if rs.1 = RuneError ∧ rs.2 = 1 then false
    else validUTF8Aux fuel (t.drop (rs.2 - 1))

/-- `utf8.ValidString`: `s` consists entirely of well-formed UTF-8 sequences. -/
def validUTF8 (s : GoString) : Bool := validUTF8Aux s.length s


/-! ## JSON encoding (`encoding/json`, `encode.go`) -/

/-- Digit `n` of the encoder's `hex` table, "0123456789abcdef". -/
def hexDigit (n : Nat) : Nat := if n < 10 then 0x30 + n else 0x57 + n

/-- The encoder's `htmlSafeSet`: the ASCII bytes written unescaped. -/
def htmlSafe (b : Nat) : Bool :=
  0x20 ≤ b && b < 0x80 && b != 0x22 && b != 0x26 && b != 0x3C && b != 0x3E && b != 0x5C

/-- What `appendString` writes for an ASCII byte that is not in `htmlSafeSet` (Go 1.22 and
later; earlier versions write `\u0008` and `\u000c` for backspace and form feed, which the
decoder reads back alike). -/
def escapeByte (b : Nat) : GoString :=
  if b = 0x5C ∨ b = 0x22 then [0x5C, b]
  else if b = 0x08 then [0x5C, 0x62]
  else if b = 0x0C then [0x5C, 0x66]
  else if b = 0x0A then [0x5C, 0x6E]
  else if b = 0x0D then [0x5C, 0x72]
  else if b = 0x09 then [0x5C, 0x74]
  else [0x5C, 0x75, 0x30, 0x30, hexDigit (b / 16), hexDigit (b % 16)]

/-- Loop of the encoder's `appendString` (HTML escaping on), with explicit fuel: the bytes
written between the quotes for the string `s`.  A byte that is not valid UTF-8 is written here
as the escape `\ufffd`; a version of the encoder that writes the three bytes EF BF BD of U+FFFD
in its place gives a text that the decoder reads back to the same string. -/
def appendStringAux : Nat → GoString → GoString
  | 0, _ => []
  | _ + 1, [] => []
  | fuel + 1, b :: t =>
    if b < 0x80 then
      (if htmlSafe b then [b] else escapeByte b) ++ appendStringAux fuel t
    else
      let rs := decodeRune (b :: t)
      if rs.1 = RuneError ∧ rs.2 = 1 then
        [0x5C, 0x75, 0x66, 0x66, 0x66, 0x64] ++ appendStringAux fuel t
      else if rs.1 = 0x2028 ∨ rs.1 = 0x2029 then
        [0x5C, 0x75, 0x32, 0x30, 0x32, hexDigit (rs.1 % 16)] ++ appendStringAux fuel (t.drop (rs.2 - 1))
      else
        (b :: t).take rs.2 ++ appendStringAux fuel (t.drop (rs.2 - 1))

/-- The encoder's `appendString`: `s` as a quoted JSON string. -/
def appendString (s : GoString) : GoString :=
  0x22 :: (appendStringAux s.length s ++ [0x22])

/-- Decimal digits of `n`, most significant first, put in front of `acc`. -/
def formatBits : Nat → Nat → GoString → GoString
  | 0, _, acc => acc
  | fuel + 1, n, acc =>
    if n < 10 then (0x30 + n) :: acc
    else formatBits fuel (n / 10) ((0x30 + n % 10) :: acc)

/-- `strconv.AppendInt(_, i, 10)`. -/
def formatInt (i : Int) : GoString :=
  if i < 0 then 0x2D :: formatBits (i.natAbs + 1) i.natAbs []
  else formatBits (i.natAbs + 1) i.natAbs []


/-! ## Data model (`dexcom.go` lines 14-32) -/

/-- The `DexcomData` struct: one reading, with JSON keys `value`, `status`, `trend`. -/
structure DexcomData where
  Sgv : Int
  Status : GoString
  Trend : GoString
deriving DecidableEq, Repr

/-- The `DexcomEGVSData` struct: the records of one API reply, newest first. -/
structure DexcomEGVSData where
  Records : List DexcomData
deriving DecidableEq, Repr

/-! ## JSON decoding (`encoding/json`, `scanner.go` and `decode.go`) -/

/-- A parsed JSON value; a number keeps its literal text, a string is unquoted. -/
inductive JSON where
  | null
  | bool (b : Bool)
  | number (lit : GoString)
  | string (s : GoString)
  | array (items : List JSON)
  | object (members : List (GoString × JSON))

/-- The scanner's `isSpace`. -/
def isSpace (c : Nat) : Bool := c = 0x20 || c = 0x09 || c = 0x0D || c = 0x0A

/-- Drop leading JSON white space. -/
def skipSpace : List Nat → List Nat
  | [] => []
  | c :: t => if isSpace c then skipSpace t else c :: t

/-- Value of one hexadecimal digit, either case. -/
def hexVal (c : Nat) : Option Nat :=
  if 0x30 ≤ c ∧ c ≤ 0x39 then some (c - 0x30)
  else if 0x61 ≤ c ∧ c ≤ 0x66 then some (c - 0x61 + 10)
  else if 0x41 ≤ c ∧ c ≤ 0x46 then some (c - 0x41 + 10)
  else none

/-- The decoder's `getu4` on the bytes that follow `\u`: the value of four hexadecimal digits. -/
def getu4 : List Nat → Option (Nat × List Nat)
  | a :: b :: c :: d :: rest =>
    match hexVal a, hexVal b, hexVal c, hexVal d with
    | some x, some y, some z, some w => some (x * 4096 + y * 256 + z * 16 + w, rest)
    | _, _, _, _ => none
  | _ => none

/-- After a `\u` escape holding the surrogate `rr`: a following `\u` escape that completes a
valid pair (`utf16.DecodeRune`), with the rune of the pair. -/
def surrogatePair (rr : Nat) : List Nat → Option (Nat × List Nat)
  | c :: e :: t =>
    if c = 0x5C ∧ e = 0x75 then
      match getu4 t with
      | some (rr1, t1) =>
        if rr < 0xDC00 ∧ 0xDC00 ≤ rr1 ∧ rr1 < 0xE000 then
          some (0x10000 + (rr - 0xD800) * 1024 + (rr1 - 0xDC00), t1)
        else none
      | none => none
    else none
  | _ => none

/-- The byte a one-letter escape stands for. -/
def simpleEscape (e : Nat) : Option Nat :=
  if e = 0x22 ∨ e = 0x5C ∨ e = 0x2F then some e
  else if e = 0x62 then some 0x08
  else if e = 0x66 then some 0x0C
  else if e = 0x6E then some 0x0A
  else if e = 0x72 then some 0x0D
  else if e = 0x74 then some 0x09
  else none

/-- Put `p` in front of the string a parse produced. -/
def prepend (p : GoString) (r : Option (GoString × List Nat)) : Option (GoString × List Nat) :=
  r.map (fun x => (p ++ x.1, x.2))

/-- A JSON string literal after its opening quote (scanner states `stateInString`... and the
decoder's `unquoteBytes` in one pass), with explicit fuel: the unquoted bytes and the input
after the closing quote; `none` when the literal is malformed. -/
def unquoteAux : Nat → List Nat → Option (GoString × List Nat)
  | 0, _ => none
  | _ + 1, [] => none
  | fuel + 1, c :: t =>
    if c = 0x22 then some ([], t)
    else if c = 0x5C then
      match t with
      | [] => none
      | e :: t1 =>
        if e = 0x75 then
          match getu4 t1 with
          | none => none
          | some (rr, t2) =>
            if 0xD800 ≤ rr ∧ rr < 0xE000 then
              match surrogatePair rr t2 with
              | some (dec, t3) => prepend (encodeRune dec) (unquoteAux fuel t3)
              | none => prepend (encodeRune RuneError) (unquoteAux fuel t2)
            else prepend (encodeRune rr) (unquoteAux fuel t2)
        else
          match simpleEscape e with
          | none => none
          | some b => prepend [b] (unquoteAux fuel t1)
    else if c < 0x20 then none
    else if c < 0x80 then prepend [c] (unquoteAux fuel t)
    else
      let rs := decodeRune (c :: t)
      prepend (encodeRune rs.1) (unquoteAux fuel (t.drop (rs.2 - 1)))

/-- A string literal after its opening quote. -/
def unquote (inp : List Nat) : Option (GoString × List Nat) :=
  unquoteAux (inp.length + 1) inp

/-- An ASCII decimal digit. -/
def isDigit (c : Nat) : Bool := 0x30 ≤ c && c ≤ 0x39

/-- Split off the leading decimal digits. -/
def spanDigits : List Nat → GoString × List Nat
  | [] => ([], [])
  | c :: t => if isDigit c then ((c :: (spanDigits t).1), (spanDigits t).2) else ([], c :: t)

/-- At least one digit (scanner states `stateDot`, `stateESign`). -/
def scanDigits1 (inp : List Nat) : Option (GoString × List Nat) :=
  if (spanDigits inp).1 = [] then none else some (spanDigits inp)

/-- Integer part of a number (scanner states `state0`, `state1`). -/
def scanIntPart : List Nat → Option (GoString × List Nat)
  | [] => none
  | c :: t =>
    if c = 0x30 then some ([c], t)
    else if 0x31 ≤ c ∧ c ≤ 0x39 then some (c :: (spanDigits t).1, (spanDigits t).2)
    else none

/-- Optional fraction (scanner states `stateDot`, `stateDot0`). -/
def scanFrac : List Nat → Option (GoString × List Nat)
  | [] => some ([], [])
  | c :: t =>
    if c = 0x2E then (scanDigits1 t).map (fun x => (c :: x.1, x.2))
    else some ([], c :: t)

/-- Optional exponent (scanner states `stateE`, `stateESign`, `stateE0`). -/
def scanExp : List Nat → Option (GoString × List Nat)
  | [] => some ([], [])
  | c :: t =>
    if c = 0x65 ∨ c = 0x45 then
      match t with
      | [] => none
      | s :: t1 =>
        if s = 0x2B ∨ s = 0x2D then (scanDigits1 t1).map (fun x => (c :: s :: x.1, x.2))
        else (scanDigits1 (s :: t1)).map (fun x => (c :: x.1, x.2))
    else some ([], c :: t)

/-- A number literal after its optional minus sign. -/
def scanUnsigned (inp : List Nat) : Option (GoString × List Nat) :=
  match scanIntPart inp with
  | none => none
  | some (i, r1) =>
    match scanFrac r1 with
    | none => none
    | some (f, r2) =>
      match scanExp r2 with
      | none => none
      | some (e, r3) => some (i ++ f ++ e, r3)

/-- A number literal: its text and the input after it. -/
def scanNumber : List Nat → Option (GoString × List Nat)
  | [] => none
  | c :: t =>
    if c = 0x2D then (scanUnsigned t).map (fun x => (c :: x.1, x.2))
    else scanUnsigned (c :: t)

/-- Strip the bytes of `word` from the front of the input. -/
def expect : List Nat → List Nat → Option (List Nat)
  | [], inp => some inp
  | _ :: _, [] => none
  | w :: ws, c :: t => if w = c then expect ws t else none

/-- The scanner's `maxNestingDepth`. -/
def maxNestingDepth : Nat := 10000

mutual
/-- One JSON value, leading white space skipped (what the scanner accepts from
`stateBeginValue`); `depth` counts the arrays and objects it lies in. -/
def parseValue : Nat → Nat → List Nat → Option (JSON × List Nat)
  | 0, _, _ => none
  | fuel + 1, depth, inp =>
    match skipSpace inp with
    | [] => none
    | c :: t =>
      if c = 0x7B then
        if maxNestingDepth ≤ depth then none
        else
          match skipSpace t with
          | [] => none
          | c1 :: t1 =>
            if c1 = 0x7D then some (JSON.object [], t1)
            else (parseMembers fuel (depth + 1) (c1 :: t1)).map (fun x => (JSON.object x.1, x.2))
      else if c = 0x5B then
        if maxNestingDepth ≤ depth then none
        else
          match skipSpace t with
          | [] => none
          | c1 :: t1 =>
            if c1 = 0x5D then some (JSON.array [], t1)
            else (parseElements fuel (depth + 1) (c1 :: t1)).map (fun x => (JSON.array x.1, x.2))
      else if c = 0x22 then (unquote t).map (fun x => (JSON.string x.1, x.2))
      else if c = 0x74 then (expect [0x72, 0x75, 0x65] t).map (fun r => (JSON.bool true, r))
      else if c = 0x66 then (expect [0x61, 0x6C, 0x73, 0x65] t).map (fun r => (JSON.bool false, r))
      else if c = 0x6E then (expect [0x75, 0x6C, 0x6C] t).map (fun r => (JSON.null, r))
      else (scanNumber (c :: t)).map (fun x => (JSON.number x.1, x.2))
/-- The members of an object from its first key up to and including the closing brace. -/
def parseMembers : Nat → Nat → List Nat → Option (List (GoString × JSON) × List Nat)
  | 0, _, _ => none
  | fuel + 1, depth, inp =>
    match skipSpace inp with
    | [] => none
    | q :: t =>
      if q = 0x22 then
        match unquote t with
        | none => none
        | some (key, r1) =>
          match skipSpace r1 with
          | [] => none
          | colon :: r2 =>
            if colon = 0x3A then
              match parseValue fuel depth r2 with
              | none => none
              | some (v, r3) =>
                match skipSpace r3 with
                | [] => none
                | c :: r4 =>
                  if c = 0x2C then
                    (parseMembers fuel depth r4).map (fun x => ((key, v) :: x.1, x.2))
                  else if c = 0x7D then some ([(key, v)], r4)
                  else none
            else none
      else none
/-- The elements of an array from its first element up to and including the closing bracket. -/
def parseElements : Nat → Nat → List Nat → Option (List JSON × List Nat)
  | 0, _, _ => none
  | fuel + 1, depth, inp =>
    match parseValue fuel depth inp with
    | none => none
    | some (v, r1) =>
      match skipSpace r1 with
      | [] => none
      | c :: r2 =>
        if c = 0x2C then (parseElements fuel depth r2).map (fun x => (v :: x.1, x.2))
        else if c = 0x5D then some ([v], r2)
        else none
end

/-- The decoder's `checkValid` and scan: the one JSON value that makes up the whole input,
white space around it allowed. -/
def parseJSON (data : GoString) : Option JSON :=
  match parseValue (data.length + 1) 0 data with
  | none => none
  | some (v, rest) => if skipSpace rest = [] then some v else none

/-- Loop of `strconv.ParseUint(_, 10, 64)` before its range check: the value of a run of
decimal digits. -/
def parseDigits : Nat → List Nat → Option Nat
  | acc, [] => some acc
  | acc, c :: t => if isDigit c then parseDigits (acc * 10 + (c - 0x30)) t else none

/-- `strconv.ParseInt(s, 10, 64)`; `none` for a syntax or range error. -/
def parseInt64 (s : GoString) : Option Int :=
  match s with
  | [] => none
  | c :: t =>
    let digits := if c = 0x2B ∨ c = 0x2D then t else c :: t
    if digits = [] then none
    else
      match parseDigits 0 digits with
      | none => none
      | some un =>
        if c = 0x2D then (if 2 ^ 63 < un then none else some (-(un : Int)))
        else if 2 ^ 63 ≤ un then none else some (un : Int)

/-- The decoder's `foldRune`, the least rune of the case-folding orbit of `r`, as far as it
matters for comparing with an ASCII name: U+017F folds to `S` and U+212A to `K`; every other
rune outside ASCII folds to a rune outside ASCII and is left as it is. -/
def foldRune (r : Nat) : Nat :=
  if r = 0x17F then 0x53 else if r = 0x212A then 0x4B else r

/-- Loop of the decoder's `appendFoldedName`, with explicit fuel. -/
def foldNameAux : Nat → GoString → GoString
  | 0, _ => []
  | _ + 1, [] => []
  | fuel + 1, c :: t =>
    if c < 0x80 then
      (if 0x61 ≤ c ∧ c ≤ 0x7A then c - 0x20 else c) :: foldNameAux fuel t
    else
      let rs := decodeRune (c :: t)
      encodeRune (foldRune rs.1) ++ foldNameAux fuel (t.drop (rs.2 - 1))

/-- The decoder's `foldName`: two keys are equal up to case exactly when their folded names are
equal. -/
def foldName (s : GoString) : GoString := foldNameAux s.length s

/-- The fields of `DexcomData`. -/
inductive StructField where
  | Sgv
  | Status
  | Trend
deriving DecidableEq, Repr

/-- The JSON name of a field, from its struct tag. -/
def StructField.name : StructField → GoString
  | .Sgv => bytesOf "value"
  | .Status => bytesOf "status"
  | .Trend => bytesOf "trend"

/-- The field an object key addresses: the field of exactly that name (`byExactName`), else
the field whose folded name is the folded key (`byFoldedName`). -/
def fieldFor (key : GoString) : Option StructField :=
  match [StructField.Sgv, StructField.Status, StructField.Trend].find? (fun f => f.name = key) with
  | some f => some f
  | none => [StructField.Sgv, StructField.Status, StructField.Trend].find? (fun f => foldName f.name = foldName key)

/-- The decoder storing a value into a field (`literalStore`, `array`, `object`): the struct
afterwards, or `none` where the decoder records an `UnmarshalTypeError` and leaves the field. -/
def storeField (f : StructField) (v : JSON) (d : DexcomData) : Option DexcomData :=
  match v with
  | JSON.null => some d
  | JSON.number lit =>
    match f with
    | StructField.Sgv =>
      match parseInt64 lit with
      | some n => some { d with Sgv := n }
      | none => none
    | _ => none
  | JSON.string s =>
    match f with
    | StructField.Sgv => none
    | StructField.Status => some { d with Status := s }
    | StructField.Trend => some { d with Trend := s }
  | _ => none

/-- The decoder's `object` on a struct: the members are stored in order; a key that addresses no
field is skipped; after a type error decoding goes on.  The flag tells whether an error was
recorded. -/
def decodeMembers : List (GoString × JSON) → DexcomData × Bool → DexcomData × Bool
  | [], st => st
  | (key, v) :: rest, (d, failed) =>
    match fieldFor key with
    | none => decodeMembers rest (d, failed)
    | some f =>
      match storeField f v d with
      | some d1 => decodeMembers rest (d1, failed)
      | none => decodeMembers rest (d, true)

/-! ## Errors and results -/

/-- A Go `error` value as the code receiving it observes it: its dynamic type and its message.
`errorString` is what `errors.New` builds; the two JSON errors stand for `*json.SyntaxError`
and `*json.UnmarshalTypeError`, whose details no code here reads; `other` is any further
error type.  The address of an `errors.New` value is not part of the model: the caller of
`getResult` holds no other reference to compare it with. -/
inductive GoError where
  | errorString (text : GoString)
  | jsonSyntaxError
  | jsonUnmarshalTypeError
  | other (kind : GoString) (text : GoString)
deriving DecidableEq, Repr

/-- `errors.New`. -/
def errorsNew (text : GoString) : GoError := GoError.errorString text

/-- What a Go call does: it returns, or it panics (a nil pointer is dereferenced). -/
inductive Go (α : Type) where
  | ret (a : α)
  | panic
deriving DecidableEq, Repr

deriving instance DecidableEq for Except

/-- Apply a function to what a call returns. -/
def Go.map {α β : Type} (f : α → β) : Go α → Go β
  | Go.ret a => Go.ret (f a)
  | Go.panic => Go.panic

/-- `json.Marshal` of a `*DexcomData`: the object with the keys of the struct tags, in field
order.  The error is always `nil`: the struct has no field the encoder rejects. -/
def jsonMarshal (data : DexcomData) : GoString × Option GoError :=
  (0x7B :: bytesOf "\"value\":" ++ formatInt data.Sgv ++
    bytesOf ",\"status\":" ++ appendString data.Status ++
    bytesOf ",\"trend\":" ++ appendString data.Trend ++ [0x7D], none)

/-- `json.Unmarshal(val, &data)` for `var data *DexcomData`: the pointer afterwards, or the
error.  The text must be one JSON value; `null` leaves the pointer `nil`; an object fills a
fresh struct; any other value is a type error.  What the pointer holds when an error is
returned is not modelled: `getCacheValue` discards it. -/
def jsonUnmarshal (val : GoString) : Except GoError (Option DexcomData) :=
  match parseJSON val with
  | none => Except.error GoError.jsonSyntaxError
  | some JSON.null => Except.ok none
  | some (JSON.object members) =>
    match decodeMembers members ({ Sgv := 0, Status := [], Trend := [] }, false) with
    | (d, false) => Except.ok (some d)
    | (_, true) => Except.error GoError.jsonUnmarshalTypeError
  | some _ => Except.error GoError.jsonUnmarshalTypeError

/-! ## Collaborators: properties, cache, API -/

/-- The keys of the segment properties that this file reads. -/
inductive Property where
  | CacheTimeout
  | HTTPTimeout
  | named (name : GoString)
deriving DecidableEq, Repr

/-- Modelled from the spec: the configuration provider (`properties.Properties`), whose code is
not in the sources; it "exposes typed getters (`int`, `string`) with defaults".  Here: the
integer properties that are set. -/
abbrev Properties := List (Property × Int)

/-- Modelled from the spec: `GetInt(property, default)` is the value that is set, else the
default ("default 5 if unset"). -/
def Properties.GetInt (props : Properties) (property : Property) (defaultValue : Int) : Int :=
  match props.lookup property with
  | some v => v
  | none => defaultValue

/-- One entry of the cache. -/
structure CacheEntry where
  key : GoString
  value : GoString
  ttl : Int
deriving DecidableEq, Repr

/-- Modelled from the spec: the key-value cache of the runtime environment, whose code is not in
the sources: "`get(key) -> (value, found)`, `set(key, value, ttlSeconds)`".  Expiry is the
business of the cache and is not modelled: the state lists the entries that a `Get` finds. -/
abbrev Cache := List CacheEntry

/-- Modelled from the spec: `Get(key)`, the value under the key and whether there is one. -/
def Cache.Get (c : Cache) (key : GoString) : GoString × Bool :=
  match c.find? (fun e => e.key = key) with
  | some e => (e.value, true)
  | none => ([], false)

/-- Modelled from the spec: `Set(key, value, ttl)` replaces the entry under the key. -/
def Cache.Set (c : Cache) (key value : GoString) (ttl : Int) : Cache :=
  { key := key, value := value, ttl := ttl } :: c.filter (fun e => e.key ≠ key)

/-- The runtime environment, as far as the segment uses it: `env.Cache()`. -/
structure Environment where
  cache : Cache
deriving DecidableEq, Repr

/-- A `DexcomAPI` value, given by what its `GetEstimatedGlucoseValues` returns: the pointer to
the reply and the error. -/
abbrev DexcomAPI := Option DexcomEGVSData × Option GoError

/-- A call made on a collaborator. -/
inductive Call where
  | cacheGet (key : GoString)
  | cacheSet (key value : GoString) (ttl : Int)
  | GetEstimatedGlucoseValues
deriving DecidableEq, Repr

/-! ## The segment (`dexcom.go` lines 14-21, 82-159) -/

/-- The `Dexcom` struct, with the environment it points to.  `calls` is not a field of the source:
it records, oldest first, the calls made on the cache and on the API. -/
structure Dexcom extends DexcomData where
  props : Properties
  env : Environment
  api : DexcomAPI
  TrendIcon : GoString
  calls : List Call
deriving DecidableEq, Repr

/-- Count of the `GetEstimatedGlucoseValues` calls in a record of calls. -/
def remoteCalls (calls : List Call) : Nat :=
  calls.count Call.GetEstimatedGlucoseValues

/-- The cache reads in a record of calls. -/
def cacheReads (calls : List Call) : List Call :=
  calls.filter (fun c => match c with | Call.cacheGet _ => true | _ => false)

/-- The cache writes in a record of calls. -/
def cacheWrites (calls : List Call) : List Call :=
  calls.filter (fun c => match c with | Call.cacheSet _ _ _ => true | _ => false)

/-- A segment as the test builds it, `&Dexcom{api: api, props: props, env: env}`: the reading
and the icon are zero values, and no call has been made. -/
def newDexcom (props : Properties) (cache : Cache) (api : DexcomAPI) : Dexcom :=
  { Sgv := 0, Status := [], Trend := [], props := props, env := { cache := cache }, api := api,
    TrendIcon := [], calls := [] }

namespace Dexcom

/-- `getTrendIcon` (lines 94-113). -/
def getTrendIcon (d : Dexcom) : GoString :=
  if d.Trend = bytesOf "doubleUp" then bytesOf "↑↑"
  else if d.Trend = bytesOf "singleUp" then bytesOf "↑"
  else if d.Trend = bytesOf "fortyFiveUp" then bytesOf "↗"
  else if d.Trend = bytesOf "flat" then bytesOf "→"
  else if d.Trend = bytesOf "fortyFiveDown" then bytesOf "↘"
  else if d.Trend = bytesOf "singleDown" then bytesOf "↓"
  else if d.Trend = bytesOf "doubleDown" then bytesOf "↓↓"
  else bytesOf ""

/-- The closure `getCacheValue` of `getResult` (lines 116-128): its two results and the segment
with the call recorded. -/
def getCacheValue (d : Dexcom) (key : GoString) : (Option DexcomData × Option GoError) × Dexcom :=
  let d1 := { d with calls := d.calls ++ [Call.cacheGet key] }
  match d.env.cache.Get key with
  | (val, true) =>
    match jsonUnmarshal val with
    | Except.error err => ((none, some err), d1)
    | Except.ok data => ((data, none), d1)
  | (_, false) => ((none, some (errorsNew (bytesOf "no data in cache"))), d1)

/-- `getResult` from line 138 on, the cache having given nothing: the remote call, the choice of
the first record and the write to the cache. -/
def fetch (d : Dexcom) (cacheTimeout : Int) : Go ((Option DexcomData × Option GoError) × Dexcom) :=
  let d1 := { d with calls := d.calls ++ [Call.GetEstimatedGlucoseValues] }
  match d.api with
  | (_, some err) => Go.ret ((none, some err), d1)
  | (none, none) => Go.panic
  | (some egvsRecords, none) =>
    match egvsRecords.Records with
    | [] => Go.ret ((none, some (errorsNew (bytesOf "no records found"))), d1)
    | data :: _ =>
      if cacheTimeout > 0 then
        match jsonMarshal data with
        | (dataJSON, none) =>
          Go.ret ((some data, none),
            { d1 with
              env := { cache := d1.env.cache.Set (bytesOf "dexcom") dataJSON cacheTimeout }
              calls := d1.calls ++ [Call.cacheSet (bytesOf "dexcom") dataJSON cacheTimeout] })
        | (_, some _) => Go.ret ((some data, none), d1)
      else Go.ret ((some data, none), d1)

/-- `getResult` (lines 115-159): the reading and the error it returns, and the segment
afterwards. -/
def getResult (d : Dexcom) : Go ((Option DexcomData × Option GoError) × Dexcom) :=
  let cacheTimeout := d.props.GetInt Property.CacheTimeout 5
  if cacheTimeout > 0 then
    match d.getCacheValue (bytesOf "dexcom") with
    | ((data, none), d1) => Go.ret ((data, none), d1)
    | ((_, some _), d1) => d1.fetch cacheTimeout
  else d.fetch cacheTimeout

/-- `Enabled` (lines 82-92): its result and the segment afterwards. -/
def Enabled (d : Dexcom) : Go (Bool × Dexcom) :=
  match d.getResult with
  | Go.panic => Go.panic
  | Go.ret ((_, some _), d1) => Go.ret (false, d1)
  | Go.ret ((none, none), _) => Go.panic
  | Go.ret ((some data, none), d1) =>
    let d2 := { d1 with toDexcomData := data }
    Go.ret (true, { d2 with TrendIcon := d2.getTrendIcon })

end Dexcom

/-! ## Values of the test (`dexcom_test.go` lines 35-78) -/

/-- The record of the case "Flat 150 from cache not found". -/
def flat150 : DexcomData :=
  { Sgv := 150, Status := bytesOf "ok", Trend := bytesOf "flat" }

/-- The record of the case "DoubleDown 50 from cache". -/
def doubleDown50 : DexcomData :=
  { Sgv := 50, Status := bytesOf "ok", Trend := bytesOf "doubleDown" }

/-- The error of the case "Error in retrieving data". -/
def somethingWentWrong : GoError := errorsNew (bytesOf "Something went wrong")

/-- A cache that holds, under "dexcom", the payload of a reading. -/
def cacheHolding (r : DexcomData) : Cache :=
  [{ key := bytesOf "dexcom", value := (jsonMarshal r).1, ttl := 5 }]

/-- The segment after the first case of the test ("Flat 150 from cache not found") has run
`Enabled`. -/
def afterFlat150 : Dexcom :=
  { toDexcomData := flat150
    props := []
    env := { cache := cacheHolding flat150 }
    api := (some { Records := [flat150] }, none)
    TrendIcon := bytesOf "→"
    calls := [Call.cacheGet (bytesOf "dexcom"), Call.GetEstimatedGlucoseValues,
      Call.cacheSet (bytesOf "dexcom") (jsonMarshal flat150).1 5] }

/-- The segment after `getResult` has run in the first case of the test. -/
def fetchedFlat150 : Dexcom :=
  { newDexcom [] (cacheHolding flat150) (some { Records := [flat150] }, none) with
    calls := [Call.cacheGet (bytesOf "dexcom"), Call.GetEstimatedGlucoseValues,
      Call.cacheSet (bytesOf "dexcom") (jsonMarshal flat150).1 5] }

/-- A cache that holds, under "dexcom", the JSON text `null`. -/
def cacheNull : Cache :=
  [{ key := bytesOf "dexcom", value := bytesOf "null", ttl := 5 }]

/-- A record whose status is the single byte FF, a Go string that is not valid UTF-8. -/
def statusFF : DexcomData :=
  { Sgv := 150, Status := [0xFF], Trend := bytesOf "flat" }

/-- The segment after `Enabled` has run on a fresh segment with an empty cache and an API that
replies with the record `statusFF`. -/
def afterStatusFF : Dexcom :=
  { toDexcomData := statusFF
    props := []
    env := { cache := cacheHolding statusFF }
    api := (some { Records := [statusFF] }, none)
    TrendIcon := bytesOf "→"
    calls := [Call.cacheGet (bytesOf "dexcom"), Call.GetEstimatedGlucoseValues,
      Call.cacheSet (bytesOf "dexcom") (jsonMarshal statusFF).1 5] }

/-! ## The request (`dexcom.go` lines 44-75) -/

/-- A `url.URL`, as far as this file uses it. -/
structure URL where
  Scheme : GoString
  Host : GoString
  Path : GoString
  RawQuery : GoString
deriving DecidableEq, Repr

/-- The query parameters of a URL, `url.Values`. -/
abbrev Values := List (GoString × GoString)

/-- Split at the first occurrence of a byte: what precedes it and, when it occurs, what
follows it. -/
def cutAt (sep : Nat) : GoString → GoString × Option GoString
  | [] => ([], none)
  | c :: t =>
    if c = sep then ([], some t)
    else ((c :: (cutAt sep t).1), (cutAt sep t).2)

/-- `url.Parse` on an absolute URL of the shape `scheme://host/path?query` without user
information, escapes or fragment, which is the shape of the URL built here. -/
def urlParse (urlStr : GoString) : Except GoError URL :=
  match cutAt 0x3A urlStr with
  | (scheme, some (0x2F :: 0x2F :: rest)) =>
    let beforeQuery := cutAt 0x3F rest
    let hostPath := cutAt 0x2F beforeQuery.1
    Except.ok
      { Scheme := scheme
        Host := hostPath.1
        Path := match hostPath.2 with
          | some p => 0x2F :: p
          | none => []
        RawQuery := beforeQuery.2.getD [] }
  | _ => Except.error (GoError.other (bytesOf "*url.Error") (bytesOf "parse"))

/-- `url.ParseQuery` on a query without escapes. -/
def parseQuery (fuel : Nat) (query : GoString) : Values :=
  match fuel, query with
  | 0, _ => []
  | _, [] => []
  | fuel + 1, q =>
    let pair := cutAt 0x26 q
    let kv := cutAt 0x3D pair.1
    (kv.1, kv.2.getD []) :: parseQuery fuel (pair.2.getD [])

/-- `URL.Query`: the parameters read from `RawQuery`, as a value of their own. -/
def URL.Query (u : URL) : Values := parseQuery u.RawQuery.length u.RawQuery

/-- `Values.Add`. -/
def Values.Add (v : Values) (key value : GoString) : Values := v ++ [(key, value)]

/-- `URL.String` for a URL of the shape above. -/
def URL.String (u : URL) : GoString :=
  u.Scheme ++ bytesOf "://" ++ u.Host ++ u.Path ++
    (if u.RawQuery = [] then [] else 0x3F :: u.RawQuery)

/-- A `time.Time`, in nanoseconds since the epoch. -/
abbrev Time := Int

/-- `time.Minute`, a duration in nanoseconds. -/
def Minute : Int := 60 * 1000000000

/-- The `dexcomAPI` struct with what its request depends on: the OAuth transport
(`http.OauthResult` on the embedded request, given by its reply to each URL), the clock
(`time.Now`) and `Time.Format`; the code of none of them is in the sources. -/
structure dexcomAPI where
  OauthResult : GoString → DexcomAPI
  now : Time
  Format : Time → GoString → GoString

namespace dexcomAPI

/-- The URL that `getDexcomAPIData` builds (lines 53-70). -/
def requestURL (d : dexcomAPI) (endpoint : GoString) : Except GoError GoString :=
  let urlStr := bytesOf "https://api.dexcom.com/v3/users/self/" ++ endpoint
  match urlParse urlStr with
  | Except.error err => Except.error err
  | Except.ok apiURL =>
    let params := apiURL.Query
    let now := d.now
    let startDate := d.Format (now + (-5) * Minute) (bytesOf "2020-01-04T07:41:55")
    let endDate := d.Format now (bytesOf "2020-01-04T07:46:55")
    let params := params.Add (bytesOf "startDate") startDate
    let _params := params.Add (bytesOf "endDate") endDate
    Except.ok apiURL.String

/-- `getDexcomAPIData` (lines 52-75). -/
def getDexcomAPIData (d : dexcomAPI) (endpoint : GoString) : DexcomAPI :=
  match d.requestURL endpoint with
  | Except.error err => (none, some err)
  | Except.ok url => d.OauthResult url

/-- `GetEstimatedGlucoseValues` (lines 48-50). -/
def GetEstimatedGlucoseValues (d : dexcomAPI) : DexcomAPI :=
  d.getDexcomAPIData (bytesOf "egvs")

end dexcomAPI

/-! ## Theorems -/

/-! ### The trend icon -/

/-- C1: `getTrendIcon` is a function of the stored trend code alone; it gives the seven icons
for the seven known codes and the empty string for every other code, the empty code and case
variants such as "Flat" among them. -/
theorem getTrendIcon_table (d : Dexcom) :
    (d.Trend = bytesOf "doubleUp" → d.getTrendIcon = bytesOf "↑↑") ∧
    (d.Trend = bytesOf "singleUp" → d.getTrendIcon = bytesOf "↑") ∧
    (d.Trend = bytesOf "fortyFiveUp" → d.getTrendIcon = bytesOf "↗") ∧
    (d.Trend = bytesOf "flat" → d.getTrendIcon = bytesOf "→") ∧
    (d.Trend = bytesOf "fortyFiveDown" → d.getTrendIcon = bytesOf "↘") ∧
    (d.Trend = bytesOf "singleDown" → d.getTrendIcon = bytesOf "↓") ∧
    (d.Trend = bytesOf "doubleDown" → d.getTrendIcon = bytesOf "↓↓") ∧
    (d.Trend ∉ [bytesOf "doubleUp", bytesOf "singleUp", bytesOf "fortyFiveUp", bytesOf "flat",
        bytesOf "fortyFiveDown", bytesOf "singleDown", bytesOf "doubleDown"] →
      d.getTrendIcon = bytesOf "") ∧
    (d.Trend = bytesOf "" → d.getTrendIcon = bytesOf "") ∧
    (d.Trend = bytesOf "Flat" → d.getTrendIcon = bytesOf "") ∧
    (∀ d1 : Dexcom, d1.Trend = d.Trend → d1.getTrendIcon = d.getTrendIcon) := by
  refine ⟨?_, ?_, ?_, ?_, ?_, ?_, ?_, ?_, ?_, ?_, ?_⟩
  · intro h; rw [Dexcom.getTrendIcon, h]; decide
  · intro h; rw [Dexcom.getTrendIcon, h]; decide
  · intro h; rw [Dexcom.getTrendIcon, h]; decide
  · intro h; rw [Dexcom.getTrendIcon, h]; decide
  · intro h; rw [Dexcom.getTrendIcon, h]; decide
  · intro h; rw [Dexcom.getTrendIcon, h]; decide
  · intro h; rw [Dexcom.getTrendIcon, h]; decide
  · intro h
    simp only [List.mem_cons, List.mem_singleton, List.not_mem_nil, or_false, not_or] at h
    obtain ⟨h1, h2, h3, h4, h5, h6, h7⟩ := h
    simp only [Dexcom.getTrendIcon, if_neg h1, if_neg h2, if_neg h3, if_neg h4, if_neg h5,
      if_neg h6, if_neg h7]
  · intro h; rw [Dexcom.getTrendIcon, h]; decide
  · intro h; rw [Dexcom.getTrendIcon, h]; decide
  · intro d1 h; simp only [Dexcom.getTrendIcon, h]

/-- Witness of C1 at a segment whose trend code is "Flat": the code is none of the seven, and the
icon is empty. -/
theorem getTrendIcon_table_witness :
    bytesOf "Flat" ∉ [bytesOf "doubleUp", bytesOf "singleUp", bytesOf "fortyFiveUp",
        bytesOf "flat", bytesOf "fortyFiveDown", bytesOf "singleDown", bytesOf "doubleDown"] ∧
      Dexcom.getTrendIcon { newDexcom [] [] (none, none) with Trend := bytesOf "Flat" } =
        bytesOf "" :=
  ⟨by decide,
    (getTrendIcon_table { newDexcom [] [] (none, none) with
      Trend := bytesOf "Flat" }).2.2.2.2.2.2.2.1 (by decide)⟩

/-! ### `getResult` and `Enabled` -/

theorem cacheWrites_append (xs ys : List Call) :
    cacheWrites (xs ++ ys) = cacheWrites xs ++ cacheWrites ys := by
  simp [cacheWrites]

theorem cacheReads_append (xs ys : List Call) :
    cacheReads (xs ++ ys) = cacheReads xs ++ cacheReads ys := by
  simp [cacheReads]

theorem remoteCalls_append (xs ys : List Call) :
    remoteCalls (xs ++ ys) = remoteCalls xs + remoteCalls ys := by
  simp [remoteCalls]

/-- C2: with a cache timeout above zero and a cache that finds under "dexcom" a payload decoding
to the reading `r`, `getResult` returns `r` and no error, makes no remote call and writes nothing
to the cache, whatever the API would reply. -/
theorem getResult_cache_hit (d : Dexcom) (val : GoString) (r : DexcomData)
    (httl : 0 < d.props.GetInt Property.CacheTimeout 5)
    (hget : d.env.cache.Get (bytesOf "dexcom") = (val, true))
    (hdec : jsonUnmarshal val = Except.ok (some r)) :
    ∃ d1, d.getResult = Go.ret ((some r, none), d1) ∧
      d1.calls = d.calls ++ [Call.cacheGet (bytesOf "dexcom")] ∧
      remoteCalls d1.calls = remoteCalls d.calls ∧
      cacheWrites d1.calls = cacheWrites d.calls ∧
      d1.env.cache = d.env.cache := by
  refine ⟨{ d with calls := d.calls ++ [Call.cacheGet (bytesOf "dexcom")] }, ?_, rfl, ?_, ?_, rfl⟩
  · simp only [Dexcom.getResult, gt_iff_lt, httl, if_true, Dexcom.getCacheValue, hget, hdec]
  · simp [remoteCalls_append, remoteCalls]
  · simp [cacheWrites_append, cacheWrites]

/-- Witness of C2: the cache holds the payload of the reading 50, "ok", "doubleDown"; the API
would reply with an error. -/
theorem getResult_cache_hit_witness :
    ∃ d1, (newDexcom [] (cacheHolding doubleDown50) (none, some somethingWentWrong)).getResult =
        Go.ret ((some doubleDown50, none), d1) ∧
      d1.calls = [] ++ [Call.cacheGet (bytesOf "dexcom")] ∧
      remoteCalls d1.calls = remoteCalls [] ∧
      cacheWrites d1.calls = cacheWrites [] ∧
      d1.env.cache = cacheHolding doubleDown50 :=
  getResult_cache_hit (newDexcom [] (cacheHolding doubleDown50) (none, some somethingWentWrong))
    (jsonMarshal doubleDown50).1 doubleDown50 (by decide) (by decide) (by decide)

/-- What `fetch` does when the API replies with at least one record and the cache is on. -/
theorem fetch_records (d : Dexcom) (ttl : Int) (r : DexcomData) (rest : List DexcomData)
    (httl : 0 < ttl) (hapi : d.api = (some { Records := r :: rest }, none)) :
    d.fetch ttl = Go.ret ((some r, none),
      { d with
        env := { cache := d.env.cache.Set (bytesOf "dexcom") (jsonMarshal r).1 ttl }
        calls := (d.calls ++ [Call.GetEstimatedGlucoseValues]) ++
          [Call.cacheSet (bytesOf "dexcom") (jsonMarshal r).1 ttl] }) := by
  simp only [Dexcom.fetch, hapi, gt_iff_lt, httl, if_true, jsonMarshal]

/-- What `fetch` does when the API replies with an error. -/
theorem fetch_error (d : Dexcom) (ttl : Int) (e : GoError) (hapi : d.api.2 = some e) :
    d.fetch ttl =
      Go.ret ((none, some e), { d with calls := d.calls ++ [Call.GetEstimatedGlucoseValues] }) := by
  rcases hd : d.api with ⟨p, q⟩
  simp only [hd] at hapi
  subst hapi
  simp only [Dexcom.fetch, hd]

/-- What `fetch` does when the API replies with no record. -/
theorem fetch_empty (d : Dexcom) (ttl : Int) (hapi : d.api = (some { Records := [] }, none)) :
    d.fetch ttl =
      Go.ret ((none, some (errorsNew (bytesOf "no records found"))),
        { d with calls := d.calls ++ [Call.GetEstimatedGlucoseValues] }) := by
  simp only [Dexcom.fetch, hapi]

/-- The segment after `getCacheValue`: only the record of calls has grown. -/
theorem getCacheValue_snd (d : Dexcom) (key : GoString) :
    (d.getCacheValue key).2 = { d with calls := d.calls ++ [Call.cacheGet key] } := by
  unfold Dexcom.getCacheValue
  split
  · split <;> rfl
  · rfl

/-- The part of `getResult` that leads to the remote call: the cache is off and `fetch` runs on
the segment as it is, or the cache read gave an error and `fetch` runs after the read. -/
theorem getResult_reaches (d : Dexcom)
    (hreach : d.props.GetInt Property.CacheTimeout 5 ≤ 0 ∨
      (d.getCacheValue (bytesOf "dexcom")).1.2 ≠ none) :
    (d.props.GetInt Property.CacheTimeout 5 ≤ 0 ∧
        d.getResult = d.fetch (d.props.GetInt Property.CacheTimeout 5)) ∨
      (0 < d.props.GetInt Property.CacheTimeout 5 ∧
        d.getResult = Dexcom.fetch { d with calls := d.calls ++ [Call.cacheGet (bytesOf "dexcom")] }
          (d.props.GetInt Property.CacheTimeout 5)) := by
  by_cases httl : 0 < d.props.GetInt Property.CacheTimeout 5
  · right
    refine ⟨httl, ?_⟩
    have hne : (d.getCacheValue (bytesOf "dexcom")).1.2 ≠ none := by
      rcases hreach with h | h
      · omega
      · exact h
    have hsnd := getCacheValue_snd d (bytesOf "dexcom")
    rcases hc : d.getCacheValue (bytesOf "dexcom") with ⟨⟨data, err⟩, d1⟩
    rw [hc] at hne hsnd
    simp only at hsnd hne
    cases err with
    | none => exact absurd rfl hne
    | some e =>
      simp only [Dexcom.getResult, gt_iff_lt, httl, if_true, hc, hsnd]
  · left
    refine ⟨by omega, ?_⟩
    simp only [Dexcom.getResult, gt_iff_lt, httl, if_false]

/-- C3: with a cache timeout above zero (5 when the property is unset), a cache read under
"dexcom" that misses or gives a payload that fails to decode, and an API reply with at least one
record, `getResult` returns the first record and no error, and writes the cache exactly once:
key "dexcom", value the JSON text of that record, time-to-live the cache timeout. -/
theorem getResult_miss_fetches (d : Dexcom) (r : DexcomData) (rest : List DexcomData)
    (httl : 0 < d.props.GetInt Property.CacheTimeout 5)
    (hmiss : (d.env.cache.Get (bytesOf "dexcom")).2 = false ∨
      ∃ e, jsonUnmarshal (d.env.cache.Get (bytesOf "dexcom")).1 = Except.error e)
    (hapi : d.api = (some { Records := r :: rest }, none)) :
    ∃ d1, d.getResult = Go.ret ((some r, none), d1) ∧
      cacheWrites d1.calls = cacheWrites d.calls ++
        [Call.cacheSet (bytesOf "dexcom") (jsonMarshal r).1
          (d.props.GetInt Property.CacheTimeout 5)] ∧
      d1.env.cache = d.env.cache.Set (bytesOf "dexcom") (jsonMarshal r).1
        (d.props.GetInt Property.CacheTimeout 5) ∧
      (jsonMarshal r).2 = none ∧
      (d.props.lookup Property.CacheTimeout = none →
        d.props.GetInt Property.CacheTimeout 5 = 5) := by
  have hne : (d.getCacheValue (bytesOf "dexcom")).1.2 ≠ none := by
    unfold Dexcom.getCacheValue
    rcases hg : d.env.cache.Get (bytesOf "dexcom") with ⟨val, found⟩
    rw [hg] at hmiss
    rcases hmiss with h | ⟨e, h⟩
    · simp only at h
      subst h
      simp
    · simp only at h
      cases found with
      | false => simp
      | true => simp [h]
  rcases getResult_reaches d (Or.inr hne) with ⟨h0, _⟩ | ⟨_, hres⟩
  · omega
  · have hf := fetch_records { d with calls := d.calls ++ [Call.cacheGet (bytesOf "dexcom")] }
      _ r rest httl hapi
    rw [hres, hf]
    refine ⟨_, rfl, ?_, rfl, rfl, ?_⟩
    · simp [cacheWrites]
    · intro hnone
      simp [Properties.GetInt, hnone]

/-- Witness of C3: the first case of the test, a fresh segment with no property set, an empty
cache and an API that replies with the record 150, "ok", "flat". -/
theorem getResult_miss_fetches_witness :
    ∃ d1, (newDexcom [] [] (some { Records := [flat150] }, none)).getResult =
        Go.ret ((some flat150, none), d1) ∧
      cacheWrites d1.calls = cacheWrites [] ++
        [Call.cacheSet (bytesOf "dexcom") (jsonMarshal flat150).1
          (Properties.GetInt [] Property.CacheTimeout 5)] ∧
      d1.env.cache = Cache.Set [] (bytesOf "dexcom") (jsonMarshal flat150).1
        (Properties.GetInt [] Property.CacheTimeout 5) ∧
      (jsonMarshal flat150).2 = none ∧
      (List.lookup Property.CacheTimeout ([] : Properties) = none →
        Properties.GetInt [] Property.CacheTimeout 5 = 5) :=
  getResult_miss_fetches (newDexcom [] [] (some { Records := [flat150] }, none)) flat150 []
    (by decide) (Or.inl (by decide)) rfl

/-- The effects of `fetch` when the cache is off: one remote call, nothing else. -/
theorem fetch_cache_off (d : Dexcom) (ttl : Int) (httl : ttl ≤ 0)
    (res : Option DexcomData × Option GoError) (d1 : Dexcom)
    (h : d.fetch ttl = Go.ret (res, d1)) :
    d1 = { d with calls := d.calls ++ [Call.GetEstimatedGlucoseValues] } := by
  have hnot : ¬ ttl > 0 := by omega
  unfold Dexcom.fetch at h
  split at h
  · injection h with h; injection h with _ h; exact h.symm
  · exact Go.noConfusion h
  · split at h
    · injection h with h; injection h with _ h; exact h.symm
    · rw [if_neg hnot] at h
      injection h with h; injection h with _ h; exact h.symm

/-- What `fetch` returns depends on the API reply alone. -/
theorem fetch_result (d : Dexcom) (ttl : Int) :
    Go.map Prod.fst (d.fetch ttl) =
      match d.api with
      | (_, some err) => Go.ret (none, some err)
      | (none, none) => Go.panic
      | (some egvsRecords, none) =>
        match egvsRecords.Records with
        | [] => Go.ret (none, some (errorsNew (bytesOf "no records found")))
        | data :: _ => Go.ret (some data, none) := by
  unfold Dexcom.fetch
  split
  · rfl
  · rfl
  · split
    · rfl
    · split
      · simp only [jsonMarshal, Go.map]
      · rfl

/-- C4: with a cache timeout of zero or less, `getResult` reads and writes no cache entry, and
what it returns depends on the API reply alone: two segments with the same reply and different
caches return the same, and the cache of each is as it was. -/
theorem getResult_cache_off (d d2 : Dexcom)
    (httl : d.props.GetInt Property.CacheTimeout 5 ≤ 0)
    (httl2 : d2.props.GetInt Property.CacheTimeout 5 ≤ 0)
    (hapi : d.api = d2.api) :
    Go.map Prod.fst d.getResult = Go.map Prod.fst d2.getResult ∧
      (∀ res d1, d.getResult = Go.ret (res, d1) →
        d1.env.cache = d.env.cache ∧ cacheReads d1.calls = cacheReads d.calls ∧
          cacheWrites d1.calls = cacheWrites d.calls) ∧
      (∀ res d3, d2.getResult = Go.ret (res, d3) →
        d3.env.cache = d2.env.cache ∧ cacheReads d3.calls = cacheReads d2.calls ∧
          cacheWrites d3.calls = cacheWrites d2.calls) := by
  have hnot : ¬ d.props.GetInt Property.CacheTimeout 5 > 0 := by omega
  have hnot2 : ¬ d2.props.GetInt Property.CacheTimeout 5 > 0 := by omega
  have hr : d.getResult = d.fetch (d.props.GetInt Property.CacheTimeout 5) := by
    simp only [Dexcom.getResult, if_neg hnot]
  have hr2 : d2.getResult = d2.fetch (d2.props.GetInt Property.CacheTimeout 5) := by
    simp only [Dexcom.getResult, if_neg hnot2]
  refine ⟨?_, ?_, ?_⟩
  · rw [hr, hr2, fetch_result, fetch_result, hapi]
  · intro res d1 h
    rw [hr] at h
    rw [fetch_cache_off d _ httl res d1 h]
    simp [cacheReads, cacheWrites]
  · intro res d3 h
    rw [hr2] at h
    rw [fetch_cache_off d2 _ httl2 res d3 h]
    simp [cacheReads, cacheWrites]

/-- Witness of C4: the cache timeout is set to 0; one cache is empty, the other holds a reading;
the API replies with the record 150, "ok", "flat". -/
theorem getResult_cache_off_witness :
    Go.map Prod.fst
        (newDexcom [(Property.CacheTimeout, 0)] [] (some { Records := [flat150] }, none)).getResult =
      Go.map Prod.fst
        (newDexcom [(Property.CacheTimeout, 0)] (cacheHolding doubleDown50)
          (some { Records := [flat150] }, none)).getResult ∧
      (∀ res d1,
        (newDexcom [(Property.CacheTimeout, 0)] [] (some { Records := [flat150] }, none)).getResult =
          Go.ret (res, d1) →
        d1.env.cache = [] ∧ cacheReads d1.calls = cacheReads [] ∧
          cacheWrites d1.calls = cacheWrites []) ∧
      (∀ res d3,
        (newDexcom [(Property.CacheTimeout, 0)] (cacheHolding doubleDown50)
          (some { Records := [flat150] }, none)).getResult = Go.ret (res, d3) →
        d3.env.cache = cacheHolding doubleDown50 ∧ cacheReads d3.calls = cacheReads [] ∧
          cacheWrites d3.calls = cacheWrites []) :=
  getResult_cache_off
    (newDexcom [(Property.CacheTimeout, 0)] [] (some { Records := [flat150] }, none))
    (newDexcom [(Property.CacheTimeout, 0)] (cacheHolding doubleDown50)
      (some { Records := [flat150] }, none))
    (by decide) (by decide) rfl

/-- What `getResult` returns when it reaches the remote call and the call fails. -/
theorem getResult_of_remote_error (d : Dexcom) (e : GoError)
    (hreach : d.props.GetInt Property.CacheTimeout 5 ≤ 0 ∨
      (d.getCacheValue (bytesOf "dexcom")).1.2 ≠ none)
    (hapi : d.api.2 = some e) :
    Go.map Prod.fst d.getResult = Go.ret (none, some e) := by
  rcases getResult_reaches d hreach with ⟨_, hres⟩ | ⟨_, hres⟩
  · rw [hres, fetch_error d _ e hapi]
    rfl
  · have hf := fetch_error { d with calls := d.calls ++ [Call.cacheGet (bytesOf "dexcom")] }
      (d.props.GetInt Property.CacheTimeout 5) e hapi
    rw [hres, hf]
    rfl

/-- C9: when `getResult` reaches the remote call (the cache is off, or the cache read gave an
error) and the call returns the error `e`, `getResult` returns no reading and exactly `e`, for
every cache timeout and every cache state. -/
theorem getResult_remote_error (d : Dexcom) (e : GoError)
    (hreach : d.props.GetInt Property.CacheTimeout 5 ≤ 0 ∨
      (d.getCacheValue (bytesOf "dexcom")).1.2 ≠ none)
    (hapi : d.api.2 = some e) :
    ∃ d1, d.getResult = Go.ret ((none, some e), d1) ∧
      remoteCalls d1.calls = remoteCalls d.calls + 1 := by
  rcases getResult_reaches d hreach with ⟨_, hres⟩ | ⟨_, hres⟩
  · rw [hres, fetch_error d _ e hapi]
    exact ⟨_, rfl, by simp [remoteCalls]⟩
  · have hf := fetch_error { d with calls := d.calls ++ [Call.cacheGet (bytesOf "dexcom")] }
      (d.props.GetInt Property.CacheTimeout 5) e hapi
    rw [hres, hf]
    exact ⟨_, rfl, by simp [remoteCalls]⟩

/-- Witness of C9: the last case of the test, an empty cache and an API that fails with
"Something went wrong". -/
theorem getResult_remote_error_witness :
    ∃ d1, (newDexcom [] [] (some { Records := [] }, some somethingWentWrong)).getResult =
        Go.ret ((none, some somethingWentWrong), d1) ∧
      remoteCalls d1.calls = remoteCalls [] + 1 :=
  getResult_remote_error (newDexcom [] [] (some { Records := [] }, some somethingWentWrong))
    somethingWentWrong (Or.inr (by decide)) rfl

/-- C5: when `Enabled` reaches the remote call and the call returns an error or no record,
`Enabled` returns false and changes nothing: the stored reading and the icon are what they
were, and the cache is not written. -/
theorem Enabled_no_data (d : Dexcom)
    (hreach : d.props.GetInt Property.CacheTimeout 5 ≤ 0 ∨
      (d.getCacheValue (bytesOf "dexcom")).1.2 ≠ none)
    (hapi : (∃ e, d.api.2 = some e) ∨ d.api = (some { Records := [] }, none)) :
    ∃ d1, d.Enabled = Go.ret (false, d1) ∧
      d1.toDexcomData = d.toDexcomData ∧ d1.TrendIcon = d.TrendIcon ∧
      d1.env.cache = d.env.cache ∧ cacheWrites d1.calls = cacheWrites d.calls ∧
      remoteCalls d1.calls = remoteCalls d.calls + 1 := by
  have key : ∀ d0 : Dexcom, d0.api = d.api → ∃ e,
      d0.fetch (d.props.GetInt Property.CacheTimeout 5) =
        Go.ret ((none, some e), { d0 with calls := d0.calls ++ [Call.GetEstimatedGlucoseValues] }) := by
    intro d0 h0
    rcases hapi with ⟨e, he⟩ | he
    · exact ⟨e, fetch_error d0 _ e (by rw [h0]; exact he)⟩
    · exact ⟨_, fetch_empty d0 _ (by rw [h0]; exact he)⟩
  rcases getResult_reaches d hreach with ⟨_, hres⟩ | ⟨_, hres⟩
  · obtain ⟨e, he⟩ := key d rfl
    refine ⟨{ d with calls := d.calls ++ [Call.GetEstimatedGlucoseValues] }, ?_, rfl, rfl, rfl,
      ?_, ?_⟩
    · simp only [Dexcom.Enabled, hres, he]
    · simp [cacheWrites]
    · simp [remoteCalls]
  · obtain ⟨e, he⟩ := key { d with calls := d.calls ++ [Call.cacheGet (bytesOf "dexcom")] } rfl
    refine ⟨{ d with calls := (d.calls ++ [Call.cacheGet (bytesOf "dexcom")]) ++
      [Call.GetEstimatedGlucoseValues] }, ?_, rfl, rfl, rfl, ?_, ?_⟩
    · simp only [Dexcom.Enabled, hres, he]
    · simp [cacheWrites]
    · simp [remoteCalls]

/-- Witness of C5: a segment that holds the reading 150, "ok", "flat" and its icon from an earlier
run, an empty cache, and an API that now replies with no record (the case "Empty array"). -/
theorem Enabled_no_data_witness :
    ∃ d1, Dexcom.Enabled { afterFlat150 with
        env := { cache := [] }
        api := (some { Records := [] }, none) } = Go.ret (false, d1) ∧
      d1.toDexcomData = flat150 ∧ d1.TrendIcon = bytesOf "→" ∧
      d1.env.cache = [] ∧ cacheWrites d1.calls = cacheWrites afterFlat150.calls ∧
      remoteCalls d1.calls = remoteCalls afterFlat150.calls + 1 :=
  Enabled_no_data { afterFlat150 with
      env := { cache := [] }
      api := (some { Records := [] }, none) }
    (Or.inr (by decide)) (Or.inr rfl)

/-- C6: when `Enabled` returns true, the stored reading is the reading `getResult` returned in
that call, in value, status and trend, and the icon is `getTrendIcon` of that reading's trend;
the fetched record 150, "ok", "flat" leaves `Sgv` 150 and the icon "→". -/
theorem Enabled_true_stores (d d1 : Dexcom) (h : d.Enabled = Go.ret (true, d1)) :
    (∃ data d0, d.getResult = Go.ret ((some data, none), d0) ∧
      d1.toDexcomData = data ∧
      d1.Sgv = data.Sgv ∧ d1.Status = data.Status ∧ d1.Trend = data.Trend ∧
      d1.TrendIcon = Dexcom.getTrendIcon { d0 with toDexcomData := data } ∧
      d1.TrendIcon = d1.getTrendIcon ∧
      d1.env = d0.env ∧ d1.calls = d0.calls) ∧
    Go.map (fun x => (x.1, x.2.Sgv, x.2.TrendIcon))
        (newDexcom [] [] (some { Records := [flat150] }, none)).Enabled =
      Go.ret (true, 150, bytesOf "→") := by
  refine ⟨?_, by decide⟩
  unfold Dexcom.Enabled at h
  split at h
  · exact Go.noConfusion h
  · injection h with h; injection h with h _; exact Bool.noConfusion h
  · exact Go.noConfusion h
  · rename_i data d0 hres
    injection h with h
    injection h with _ h
    subst h
    exact ⟨data, d0, hres, rfl, rfl, rfl, rfl, rfl, rfl, rfl, rfl⟩

/-- Witness of C6: the first case of the test, from the fresh segment to the segment that holds
the reading 150, "ok", "flat". -/
theorem Enabled_true_stores_witness :
    (∃ data d0, (newDexcom [] [] (some { Records := [flat150] }, none)).getResult =
        Go.ret ((some data, none), d0) ∧
      afterFlat150.toDexcomData = data ∧
      afterFlat150.Sgv = data.Sgv ∧ afterFlat150.Status = data.Status ∧
      afterFlat150.Trend = data.Trend ∧
      afterFlat150.TrendIcon = Dexcom.getTrendIcon { d0 with toDexcomData := data } ∧
      afterFlat150.TrendIcon = afterFlat150.getTrendIcon ∧
      afterFlat150.env = d0.env ∧ afterFlat150.calls = d0.calls) ∧
    Go.map (fun x => (x.1, x.2.Sgv, x.2.TrendIcon))
        (newDexcom [] [] (some { Records := [flat150] }, none)).Enabled =
      Go.ret (true, 150, bytesOf "→") :=
  Enabled_true_stores (newDexcom [] [] (some { Records := [flat150] }, none)) afterFlat150
    (by decide)

/-! ### The JSON text of a reading, written and read back -/

/-! ### Numbers: `strconv.AppendInt` and `strconv.ParseInt` -/

theorem formatBits_acc (fuel n : Nat) (acc : GoString) :
    formatBits fuel n acc = formatBits fuel n [] ++ acc := by
  induction fuel generalizing n acc with
  | zero => simp [formatBits]
  | succ f ih =>
    unfold formatBits
    split
    · simp
    · rw [ih (n / 10) ((0x30 + n % 10) :: acc), ih (n / 10) [0x30 + n % 10]]
      simp

theorem parseDigits_append_digit (ds : GoString) (a d : Nat) (hd : d < 10) :
    parseDigits a (ds ++ [0x30 + d]) = (parseDigits a ds).map (fun x => x * 10 + d) := by
  induction ds generalizing a with
  | nil =>
    have h1 : isDigit (0x30 + d) = true := by simp [isDigit]; omega
    simp [parseDigits, h1]
  | cons c t ih =>
    simp only [List.cons_append, parseDigits]
    split
    · exact ih _
    · rfl

theorem spanDigits_append (ds rest : GoString) (hds : ∀ c ∈ ds, isDigit c = true)
    (hrest : ∀ c t, rest = c :: t → isDigit c = false) :
    spanDigits (ds ++ rest) = (ds, rest) := by
  induction ds with
  | nil =>
    cases rest with
    | nil => rfl
    | cons c t => simp [spanDigits, hrest c t rfl]
  | cons c t ih =>
    have hc : isDigit c = true := hds c (List.mem_cons_self _ _)
    have ht := ih (fun x hx => hds x (List.mem_cons_of_mem _ hx))
    simp [spanDigits, hc, ht]

/-- The decimal text of a natural number: digits only, not empty, no leading zero, and read back
by `parseDigits`. -/
theorem formatBits_spec (fuel n : Nat) (h : n < fuel) :
    (∀ c ∈ formatBits fuel n [], isDigit c = true) ∧
      parseDigits 0 (formatBits fuel n []) = some n ∧
      (∃ c t, formatBits fuel n [] = c :: t ∧ (n = 0 → c = 0x30 ∧ t = []) ∧
        (0 < n → 0x31 ≤ c ∧ c ≤ 0x39)) := by
  induction fuel generalizing n with
  | zero => omega
  | succ f ih =>
    unfold formatBits
    by_cases hn : n < 10
    · rw [if_pos hn]
      refine ⟨?_, ?_, ⟨0x30 + n, [], rfl, ?_, ?_⟩⟩
      · intro c hc
        simp only [List.mem_singleton] at hc
        subst hc
        simp [isDigit]; omega
      · have h1 : isDigit (0x30 + n) = true := by simp [isDigit]; omega
        simp [parseDigits, h1]
      · intro h0; subst h0; exact ⟨rfl, rfl⟩
      · intro hpos; omega
    · rw [if_neg hn, formatBits_acc]
      have hlt : n / 10 < f := by omega
      obtain ⟨hdig, hparse, c, t, hct, _, hpos⟩ := ih (n / 10) hlt
      refine ⟨?_, ?_, ⟨c, t ++ [0x30 + n % 10], ?_, ?_, ?_⟩⟩
      · intro x hx
        simp only [List.mem_append, List.mem_singleton] at hx
        rcases hx with hx | hx
        · exact hdig x hx
        · subst hx
          simp [isDigit]; omega
      · rw [parseDigits_append_digit _ _ _ (Nat.mod_lt _ (by omega)), hparse]
        simp only [Option.map_some', Option.some.injEq]
        omega
      · rw [hct]; rfl
      · intro h0; omega
      · intro _; exact hpos (by omega)

theorem scanUnsigned_formatBits (n : Nat) (rest : GoString) :
    scanUnsigned (formatBits (n + 1) n [] ++ 0x2C :: rest) =
      some (formatBits (n + 1) n [], 0x2C :: rest) := by
  obtain ⟨hdig, _, c, t, hct, h0, hpos⟩ := formatBits_spec (n + 1) n (by omega)
  rw [hct] at hdig ⊢
  have hcomma : ∀ c1 t1, (0x2C :: rest : GoString) = c1 :: t1 → isDigit c1 = false := by
    intro c1 t1 h
    injection h with h _
    subst h
    decide
  have hspan : spanDigits (t ++ 0x2C :: rest) = (t, 0x2C :: rest) :=
    spanDigits_append t _ (fun x hx => hdig x (List.mem_cons_of_mem _ hx)) hcomma
  have hint : scanIntPart (c :: (t ++ 0x2C :: rest)) = some (c :: t, 0x2C :: rest) := by
    rcases Nat.eq_zero_or_pos n with hn | hn
    · obtain ⟨hc, ht⟩ := h0 hn
      subst hc; subst ht
      simp [scanIntPart]
    · obtain ⟨h1, h2⟩ := hpos hn
      have hne : c ≠ 0x30 := by omega
      simp only [scanIntPart, if_neg hne, h1, h2, and_self, if_true, hspan]
  simp only [scanUnsigned, List.cons_append, hint, scanFrac, scanExp]
  simp

theorem scanNumber_formatInt (i : Int) (rest : GoString) :
    scanNumber (formatInt i ++ 0x2C :: rest) = some (formatInt i, 0x2C :: rest) := by
  obtain ⟨_, _, c, t, hct, _, hpos⟩ := formatBits_spec (i.natAbs + 1) i.natAbs (by omega)
  have h0 : i.natAbs = 0 → c = 0x30 := by
    intro h
    have := scanUnsigned_formatBits i.natAbs rest
    obtain ⟨_, _, c2, t2, hct2, h02, _⟩ := formatBits_spec (i.natAbs + 1) i.natAbs (by omega)
    rw [hct] at hct2
    injection hct2 with hc _
    rw [hc]
    exact (h02 h).1
  have hc : c ≠ 0x2D := by
    rcases Nat.eq_zero_or_pos i.natAbs with hn | hn
    · rw [h0 hn]; decide
    · have := hpos hn; omega
  unfold formatInt
  split
  · simp only [List.cons_append, scanNumber, if_true, scanUnsigned_formatBits]
    rfl
  · have hs := scanUnsigned_formatBits i.natAbs rest
    rw [hct] at hs ⊢
    simp only [List.cons_append, scanNumber, if_neg hc]
    exact hs

theorem parseInt64_formatInt (i : Int) (hlo : -(2 : Int) ^ 63 ≤ i) (hhi : i < (2 : Int) ^ 63) :
    parseInt64 (formatInt i) = some i := by
  obtain ⟨_, hparse, c, t, hct, h0, hpos⟩ := formatBits_spec (i.natAbs + 1) i.natAbs (by omega)
  have hcd : c = 0x30 ∨ (0x31 ≤ c ∧ c ≤ 0x39) := by
    rcases Nat.eq_zero_or_pos i.natAbs with hn | hn
    · exact Or.inl (h0 hn).1
    · exact Or.inr (hpos hn)
  unfold formatInt
  split
  · rename_i hneg
    have hne : formatBits (i.natAbs + 1) i.natAbs [] ≠ [] := by rw [hct]; simp
    have hbound : ¬ (2 ^ 63 < i.natAbs) := by omega
    simp only [parseInt64, or_true, if_true, if_neg hne, hparse, if_neg hbound]
    congr 1
    omega
  · rename_i hneg
    rw [hct]
    have h1 : ¬ (c = 0x2B ∨ c = 0x2D) := by omega
    have hbound : ¬ (2 ^ 63 ≤ i.natAbs) := by omega
    have h2 : c ≠ 0x2D := by omega
    simp only [parseInt64, if_neg h1, ← hct, hparse, if_neg h2, if_neg hbound]
    rw [hct]
    simp only [reduceCtorEq, if_false]
    congr 1
    omega

theorem formatInt_head (i : Int) :
    ∃ c t, formatInt i = c :: t ∧ (c = 0x2D ∨ (0x30 ≤ c ∧ c ≤ 0x39)) := by
  obtain ⟨_, _, c, t, hct, h0, hpos⟩ := formatBits_spec (i.natAbs + 1) i.natAbs (by omega)
  unfold formatInt
  split
  · exact ⟨_, _, rfl, Or.inl rfl⟩
  · refine ⟨c, t, hct, Or.inr ?_⟩
    rcases Nat.eq_zero_or_pos i.natAbs with hn | hn
    · rw [(h0 hn).1]; decide
    · have := hpos hn; omega

/-! ### UTF-8: what `decodeRune` accepts, `encodeRune` writes back -/

theorem leadInfo_eq_some (b sz lo hi : Nat) (h : leadInfo b = some (sz, lo, hi)) :
    (sz = 2 ∧ lo = 0x80 ∧ hi = 0xBF ∧ 0xC2 ≤ b ∧ b ≤ 0xDF) ∨
      (sz = 3 ∧ lo = 0xA0 ∧ hi = 0xBF ∧ b = 0xE0) ∨
      (sz = 3 ∧ lo = 0x80 ∧ hi = 0xBF ∧ ((0xE1 ≤ b ∧ b ≤ 0xEC) ∨ (0xEE ≤ b ∧ b ≤ 0xEF))) ∨
      (sz = 3 ∧ lo = 0x80 ∧ hi = 0x9F ∧ b = 0xED) ∨
      (sz = 4 ∧ lo = 0x90 ∧ hi = 0xBF ∧ b = 0xF0) ∨
      (sz = 4 ∧ lo = 0x80 ∧ hi = 0xBF ∧ 0xF1 ≤ b ∧ b ≤ 0xF3) ∨
      (sz = 4 ∧ lo = 0x80 ∧ hi = 0x8F ∧ b = 0xF4) := by
  unfold leadInfo at h
  split_ifs at h <;> simp only [Option.some.injEq, Prod.mk.injEq, reduceCtorEq] at h <;> omega

theorem encodeRune_two (b s1 sz lo hi : Nat) (h : leadInfo b = some (sz, lo, hi))
    (hsz : sz = 2) (h1 : ¬ (s1 < lo ∨ hi < s1)) :
    encodeRune (b % 32 * 64 + s1 % 64) = [b, s1] := by
  have hc := leadInfo_eq_some b sz lo hi h
  have hr : 0xC2 ≤ b ∧ b ≤ 0xDF ∧ 0x80 ≤ s1 ∧ s1 ≤ 0xBF := by omega
  obtain ⟨hb1, hb2, hs1, hs2⟩ := hr
  have e1 : ¬ ((0xD800 ≤ b % 32 * 64 + s1 % 64 ∧ b % 32 * 64 + s1 % 64 ≤ 0xDFFF) ∨
      0x10FFFF < b % 32 * 64 + s1 % 64) := by omega
  have e2 : ¬ (b % 32 * 64 + s1 % 64 < 0x80) := by omega
  have e3 : b % 32 * 64 + s1 % 64 < 0x800 := by omega
  simp only [encodeRune, if_neg e1, utf8Encode, if_neg e2, if_pos e3, List.cons.injEq, and_true]
  constructor <;> omega

theorem encodeRune_three (b s1 s2 sz lo hi : Nat) (h : leadInfo b = some (sz, lo, hi))
    (hsz : sz = 3) (h1 : ¬ (s1 < lo ∨ hi < s1)) (h2 : isCont s2 = true) :
    encodeRune (b % 16 * 4096 + s1 % 64 * 64 + s2 % 64) = [b, s1, s2] := by
  have hc := leadInfo_eq_some b sz lo hi h
  simp only [isCont, Bool.and_eq_true, decide_eq_true_eq] at h2
  obtain ⟨h2a, h2b⟩ := h2
  have e1 : ¬ ((0xD800 ≤ b % 16 * 4096 + s1 % 64 * 64 + s2 % 64 ∧
      b % 16 * 4096 + s1 % 64 * 64 + s2 % 64 ≤ 0xDFFF) ∨
      0x10FFFF < b % 16 * 4096 + s1 % 64 * 64 + s2 % 64) := by omega
  have e2 : ¬ (b % 16 * 4096 + s1 % 64 * 64 + s2 % 64 < 0x80) := by omega
  have e3 : ¬ (b % 16 * 4096 + s1 % 64 * 64 + s2 % 64 < 0x800) := by omega
  have e4 : b % 16 * 4096 + s1 % 64 * 64 + s2 % 64 < 0x10000 := by omega
  simp only [encodeRune, if_neg e1, utf8Encode, if_neg e2, if_neg e3, if_pos e4, List.cons.injEq,
    and_true]
  refine ⟨?_, ?_, ?_⟩ <;> omega

theorem encodeRune_four (b s1 s2 s3 sz lo hi : Nat) (h : leadInfo b = some (sz, lo, hi))
    (hsz : sz = 4) (h1 : ¬ (s1 < lo ∨ hi < s1)) (h2 : isCont s2 = true)
    (h3 : isCont s3 = true) :
    encodeRune (b % 8 * 262144 + s1 % 64 * 4096 + s2 % 64 * 64 + s3 % 64) = [b, s1, s2, s3] := by
  have hc := leadInfo_eq_some b sz lo hi h
  simp only [isCont, Bool.and_eq_true, decide_eq_true_eq] at h2 h3
  obtain ⟨h2a, h2b⟩ := h2
  obtain ⟨h3a, h3b⟩ := h3
  have e1 : ¬ ((0xD800 ≤ b % 8 * 262144 + s1 % 64 * 4096 + s2 % 64 * 64 + s3 % 64 ∧
      b % 8 * 262144 + s1 % 64 * 4096 + s2 % 64 * 64 + s3 % 64 ≤ 0xDFFF) ∨
      0x10FFFF < b % 8 * 262144 + s1 % 64 * 4096 + s2 % 64 * 64 + s3 % 64) := by omega
  have e2 : ¬ (b % 8 * 262144 + s1 % 64 * 4096 + s2 % 64 * 64 + s3 % 64 < 0x80) := by omega
  have e3 : ¬ (b % 8 * 262144 + s1 % 64 * 4096 + s2 % 64 * 64 + s3 % 64 < 0x800) := by omega
  have e4 : ¬ (b % 8 * 262144 + s1 % 64 * 4096 + s2 % 64 * 64 + s3 % 64 < 0x10000) := by omega
  simp only [encodeRune, if_neg e1, utf8Encode, if_neg e2, if_neg e3, if_neg e4, List.cons.injEq,
    and_true]
  refine ⟨?_, ?_, ?_, ?_⟩ <;> omega

/-- A sequence that `decodeRune` accepts: the bytes of the rune lead the string, `encodeRune`
writes these bytes back, and what follows them has no part in the result. -/
theorem decodeRune_valid (b : Nat) (t : GoString) (hb : ¬ b < 0x80)
    (hv : ¬ ((decodeRune (b :: t)).1 = RuneError ∧ (decodeRune (b :: t)).2 = 1)) :
    ∃ p q, t = p ++ q ∧ p.length + 1 = (decodeRune (b :: t)).2 ∧
      encodeRune (decodeRune (b :: t)).1 = b :: p ∧
      ∀ y, decodeRune (b :: (p ++ y)) = decodeRune (b :: t) := by
  cases hinfo : leadInfo b with
  | none =>
    exfalso
    apply hv
    simp [decodeRune, hb, hinfo]
  | some info =>
    obtain ⟨sz, lo, hi⟩ := info
    have hc := leadInfo_eq_some b sz lo hi hinfo
    have hsz : sz = 2 ∨ sz = 3 ∨ sz = 4 := by omega
    cases t with
    | nil =>
      exfalso
      apply hv
      simp [decodeRune, hb, hinfo]
    | cons s1 t1 =>
      by_cases h1 : s1 < lo ∨ hi < s1
      · exfalso
        apply hv
        simp [decodeRune, hb, hinfo, h1]
      · by_cases h2 : sz = 2
        · have hd : ∀ y, decodeRune (b :: s1 :: y) = (b % 32 * 64 + s1 % 64, 2) := by
            intro y
            simp [decodeRune, hb, hinfo, h1, h2]
          refine ⟨[s1], t1, rfl, ?_, ?_, ?_⟩
          · rw [hd]; rfl
          · rw [hd]; exact encodeRune_two b s1 sz lo hi hinfo h2 h1
          · intro y; rw [hd t1]; exact hd y
        · cases t1 with
          | nil =>
            exfalso
            apply hv
            have : ¬ sz ≤ 2 := by omega
            have h3 : 2 < sz := by omega
            simp [decodeRune, hb, hinfo, h3]
          | cons s2 t2 =>
            by_cases hc2 : isCont s2 = true
            · by_cases h3 : sz = 3
              · have hd : ∀ y, decodeRune (b :: s1 :: s2 :: y) =
                    (b % 16 * 4096 + s1 % 64 * 64 + s2 % 64, 3) := by
                  intro y
                  simp [decodeRune, hb, hinfo, h1, h3, hc2]
                refine ⟨[s1, s2], t2, rfl, ?_, ?_, ?_⟩
                · rw [hd]; rfl
                · rw [hd]; exact encodeRune_three b s1 s2 sz lo hi hinfo h3 h1 hc2
                · intro y; rw [hd t2]; exact hd y
              · have h4 : sz = 4 := by omega
                cases t2 with
                | nil =>
                  exfalso
                  apply hv
                  simp [decodeRune, hb, hinfo, h4]
                | cons s3 t3 =>
                  by_cases hc3 : isCont s3 = true
                  · have hd : ∀ y, decodeRune (b :: s1 :: s2 :: s3 :: y) =
                        (b % 8 * 262144 + s1 % 64 * 4096 + s2 % 64 * 64 + s3 % 64, 4) := by
                      intro y
                      simp [decodeRune, hb, hinfo, h1, h4, hc2, hc3]
                    refine ⟨[s1, s2, s3], t3, rfl, ?_, ?_, ?_⟩
                    · rw [hd]; rfl
                    · rw [hd]
                      exact encodeRune_four b s1 s2 s3 sz lo hi hinfo h4 h1 hc2 hc3
                    · intro y; rw [hd t3]; exact hd y
                  · exfalso
                    apply hv
                    simp [decodeRune, hb, hinfo, h1, h4, hc2, hc3]
            · exfalso
              apply hv
              have : ¬ sz ≤ 2 := by omega
              simp [decodeRune, hb, hinfo, h1, hc2, this]

/-! ### Strings: the encoder's `appendString` read back by the decoder -/

theorem hexVal_hexDigit (k : Nat) (hk : k < 16) : hexVal (hexDigit k) = some k := by
  interval_cases k <;> rfl

theorem encodeRune_ascii (b : Nat) (hb : b < 0x80) : encodeRune b = [b] := by
  have e1 : ¬ ((0xD800 ≤ b ∧ b ≤ 0xDFFF) ∨ 0x10FFFF < b) := by omega
  simp only [encodeRune, if_neg e1, utf8Encode, if_pos hb]

theorem getu4_hex (a b c d : Nat) (rest : List Nat) (ha : a < 16) (hb : b < 16) (hc : c < 16)
    (hd : d < 16) :
    getu4 (hexDigit a :: hexDigit b :: hexDigit c :: hexDigit d :: rest) =
      some (a * 4096 + b * 256 + c * 16 + d, rest) := by
  simp only [getu4, hexVal_hexDigit a ha, hexVal_hexDigit b hb, hexVal_hexDigit c hc,
    hexVal_hexDigit d hd]

/-- One step of the decoder over what the encoder wrote for an ASCII byte. -/
theorem unquoteAux_ascii (b fuel : Nat) (x : List Nat) (hb : b < 0x80) :
    unquoteAux (fuel + 1) ((if htmlSafe b then [b] else escapeByte b) ++ x) =
      prepend [b] (unquoteAux fuel x) := by
  by_cases hs : htmlSafe b = true
  · rw [if_pos hs]
    simp only [htmlSafe, Bool.and_eq_true, decide_eq_true_eq, bne_iff_ne, ne_eq] at hs
    obtain ⟨⟨⟨⟨⟨⟨h1, h2⟩, h3⟩, _⟩, _⟩, _⟩, h4⟩ := hs
    have h5 : ¬ b < 0x20 := by omega
    show unquoteAux (fuel + 1) (b :: x) = _
    simp only [unquoteAux, if_neg h3, if_neg h4, if_neg h5, if_pos hb]
  · rw [if_neg hs]
    unfold escapeByte
    split_ifs with c1 c2 c3 c4 c5 c6
    · rcases c1 with c1 | c1 <;> subst c1 <;>
        simp [unquoteAux, simpleEscape]
    · subst c2; simp [unquoteAux, simpleEscape]
    · subst c3; simp [unquoteAux, simpleEscape]
    · subst c4; simp [unquoteAux, simpleEscape]
    · subst c5; simp [unquoteAux, simpleEscape]
    · subst c6; simp [unquoteAux, simpleEscape]
    · have hg := getu4_hex 0 0 (b / 16) (b % 16) x (by omega) (by omega) (by omega) (by omega)
      have hval : 0 * 4096 + 0 * 256 + b / 16 * 16 + b % 16 = b := by omega
      rw [hval] at hg
      have h00 : hexDigit 0 = 0x30 := rfl
      rw [h00] at hg
      have hns : ¬ (0xD800 ≤ b ∧ b < 0xE000) := by omega
      show unquoteAux (fuel + 1)
        (0x5C :: 0x75 :: 0x30 :: 0x30 :: hexDigit (b / 16) :: hexDigit (b % 16) :: x) = _
      simp only [unquoteAux, Nat.reduceEqDiff, if_false, if_true, hg, if_neg hns,
        encodeRune_ascii b hb]

theorem escape_length (b : Nat) : 1 ≤ (if htmlSafe b then [b] else escapeByte b).length := by
  unfold escapeByte
  split_ifs <;> simp

theorem prepend_some (p s : GoString) (rest : List Nat) :
    prepend p (some (s, rest)) = some (p ++ s, rest) := rfl

/-- The decoder reads back what the encoder wrote between the quotes of a valid UTF-8 string. -/
theorem unquoteAux_appendStringAux (m : Nat) :
    ∀ s : GoString, s.length ≤ m → validUTF8Aux m s = true →
      ∀ (fuel : Nat) (rest : List Nat), (appendStringAux m s).length < fuel →
        unquoteAux fuel (appendStringAux m s ++ 0x22 :: rest) = some (s, rest) := by
  induction m with
  | zero =>
    intro s hlen _ fuel rest hfuel
    have hs : s = [] := List.length_eq_zero.mp (by omega)
    subst hs
    obtain ⟨f, rfl⟩ : ∃ f, fuel = f + 1 := ⟨fuel - 1, by omega⟩
    simp [appendStringAux, unquoteAux]
  | succ m ih =>
    intro s hlen hvalid fuel rest hfuel
    obtain ⟨f, rfl⟩ : ∃ f, fuel = f + 1 := ⟨fuel - 1, by omega⟩
    cases s with
    | nil => simp [appendStringAux, unquoteAux]
    | cons b t =>
      by_cases hb : b < 0x80
      · have hdec : decodeRune (b :: t) = (b, 1) := by simp [decodeRune, hb]
        have hne : ¬ (b = RuneError ∧ 1 = 1) := by
          intro h
          have := h.1
          simp only [RuneError] at this
          omega
        have hvt : validUTF8Aux m t = true := by
          simp [validUTF8Aux, hdec] at hvalid
          exact hvalid.2
        have happ : appendStringAux (m + 1) (b :: t) =
            (if htmlSafe b then [b] else escapeByte b) ++ appendStringAux m t := by
          simp only [appendStringAux, if_pos hb]
        have hl := escape_length b
        rw [happ] at hfuel ⊢
        rw [List.length_append] at hfuel
        rw [List.append_assoc, unquoteAux_ascii b f _ hb,
          ih t (by simpa using hlen) hvt f rest (by omega), prepend_some]
        rfl
      · have hv : ¬ ((decodeRune (b :: t)).1 = RuneError ∧ (decodeRune (b :: t)).2 = 1) := by
          intro h
          simp [validUTF8Aux, h] at hvalid
        obtain ⟨p, q, htq, hsize, henc, hpre⟩ := decodeRune_valid b t hb hv
        have hdrop : t.drop ((decodeRune (b :: t)).2 - 1) = q := by
          rw [← hsize, htq]
          simp
        have htake : (b :: t).take (decodeRune (b :: t)).2 = b :: p := by
          rw [← hsize, htq]
          simp
        have hvq : validUTF8Aux m q = true := by
          simpa [validUTF8Aux, hv, hdrop] using hvalid
        have hlq : q.length ≤ m := by
          have : t.length = p.length + q.length := by rw [htq]; simp
          simp only [List.length_cons] at hlen
          omega
        have hb22 : b ≠ 0x22 := by omega
        have hb5c : b ≠ 0x5C := by omega
        have hb20 : ¬ b < 0x20 := by omega
        by_cases hls : (decodeRune (b :: t)).1 = 0x2028 ∨ (decodeRune (b :: t)).1 = 0x2029
        · have happ : appendStringAux (m + 1) (b :: t) =
              [0x5C, 0x75, 0x32, 0x30, 0x32, hexDigit ((decodeRune (b :: t)).1 % 16)] ++
                appendStringAux m q := by
            simp only [appendStringAux, if_neg hb, if_neg hv, if_pos hls, hdrop]
          rw [happ] at hfuel ⊢
          rw [List.length_append] at hfuel
          have hg := getu4_hex 2 0 2 ((decodeRune (b :: t)).1 % 16)
            (appendStringAux m q ++ 0x22 :: rest) (by omega) (by omega) (by omega) (by omega)
          have hval : 2 * 4096 + 0 * 256 + 2 * 16 + (decodeRune (b :: t)).1 % 16 =
              (decodeRune (b :: t)).1 := by omega
          rw [hval] at hg
          have h2 : hexDigit 2 = 0x32 := rfl
          have h0 : hexDigit 0 = 0x30 := rfl
          rw [h2, h0] at hg
          have hns : ¬ (0xD800 ≤ (decodeRune (b :: t)).1 ∧ (decodeRune (b :: t)).1 < 0xE000) := by
            omega
          show unquoteAux (f + 1) (0x5C :: 0x75 :: 0x32 :: 0x30 :: 0x32 ::
            hexDigit ((decodeRune (b :: t)).1 % 16) :: (appendStringAux m q ++ 0x22 :: rest)) = _
          simp only [unquoteAux, Nat.reduceEqDiff, if_false, if_true, hg, if_neg hns, henc]
          rw [ih q hlq hvq f rest (by simp at hfuel; omega), prepend_some, htq]
          rfl
        · have happ : appendStringAux (m + 1) (b :: t) = (b :: p) ++ appendStringAux m q := by
            simp only [appendStringAux, if_neg hb, if_neg hv, if_neg hls, hdrop, htake]
          rw [happ] at hfuel ⊢
          rw [List.length_append] at hfuel
          have hpre2 := hpre (appendStringAux m q ++ 0x22 :: rest)
          have hdrop2 : (p ++ (appendStringAux m q ++ 0x22 :: rest)).drop
              ((decodeRune (b :: t)).2 - 1) = appendStringAux m q ++ 0x22 :: rest := by
            rw [← hsize]
            simp
          rw [List.append_assoc]
          show unquoteAux (f + 1) (b :: (p ++ (appendStringAux m q ++ 0x22 :: rest))) = _
          simp only [unquoteAux, if_neg hb22, if_neg hb5c, if_neg hb20, if_neg hb, hpre2, henc,
            hdrop2]
          rw [ih q hlq hvq f rest (by simp at hfuel; omega), prepend_some, htq]
          rfl

theorem unquote_appendStringAux (s : GoString) (rest : List Nat) (hv : validUTF8 s = true) :
    unquote (appendStringAux s.length s ++ 0x22 :: rest) = some (s, rest) :=
  unquoteAux_appendStringAux s.length s (Nat.le_refl _) hv _ rest (by simp; omega)

/-! ### Values and members: the decoder on what `jsonMarshal` wrote -/

theorem parseValue_string (f depth : Nat) (s : GoString) (rest : List Nat)
    (hv : validUTF8 s = true) :
    parseValue (f + 1) depth (0x22 :: (appendStringAux s.length s ++ 0x22 :: rest)) =
      some (JSON.string s, rest) := by
  simp [parseValue, skipSpace, isSpace, unquote_appendStringAux s rest hv]

theorem parseValue_number (f depth : Nat) (i : Int) (rest : List Nat) :
    parseValue (f + 1) depth (formatInt i ++ 0x2C :: rest) =
      some (JSON.number (formatInt i), 0x2C :: rest) := by
  have hscan := scanNumber_formatInt i rest
  obtain ⟨c, t, hct, hc⟩ := formatInt_head i
  rw [hct] at hscan ⊢
  have hsp : isSpace c = false := by
    simp only [isSpace, Bool.or_eq_false_iff, decide_eq_false_iff_not]
    omega
  have h1 : c ≠ 0x7B := by omega
  have h2 : c ≠ 0x5B := by omega
  have h3 : c ≠ 0x22 := by omega
  have h4 : c ≠ 0x74 := by omega
  have h5 : c ≠ 0x66 := by omega
  have h6 : c ≠ 0x6E := by omega
  simp only [List.cons_append] at hscan ⊢
  simp [parseValue, skipSpace, hsp, h1, h2, h3, h4, h5, h6, hscan]

theorem parseMembers_more (f depth : Nat) (key : GoString) (input rest : List Nat) (v : JSON)
    (hk : validUTF8 key = true) (hv : parseValue f depth input = some (v, 0x2C :: rest)) :
    parseMembers (f + 1) depth
        (0x22 :: (appendStringAux key.length key ++ 0x22 :: 0x3A :: input)) =
      (parseMembers f depth rest).map (fun x => ((key, v) :: x.1, x.2)) := by
  simp [parseMembers, skipSpace, isSpace, unquote_appendStringAux key _ hk, hv]

theorem parseMembers_last (f depth : Nat) (key : GoString) (input rest : List Nat) (v : JSON)
    (hk : validUTF8 key = true) (hv : parseValue f depth input = some (v, 0x7D :: rest)) :
    parseMembers (f + 1) depth
        (0x22 :: (appendStringAux key.length key ++ 0x22 :: 0x3A :: input)) =
      some ([(key, v)], rest) := by
  simp [parseMembers, skipSpace, isSpace, unquote_appendStringAux key _ hk, hv]

/-- The text `jsonMarshal` writes, member by member. -/
theorem jsonMarshal_text (r : DexcomData) :
    (jsonMarshal r).1 =
      0x7B :: 0x22 :: (appendStringAux (bytesOf "value").length (bytesOf "value") ++
        0x22 :: 0x3A :: (formatInt r.Sgv ++
        0x2C :: 0x22 :: (appendStringAux (bytesOf "status").length (bytesOf "status") ++
        0x22 :: 0x3A :: 0x22 :: (appendStringAux r.Status.length r.Status ++
        0x22 :: 0x2C :: 0x22 :: (appendStringAux (bytesOf "trend").length (bytesOf "trend") ++
        0x22 :: 0x3A :: 0x22 :: (appendStringAux r.Trend.length r.Trend ++
        0x22 :: [0x7D])))))) := by
  have k1 : bytesOf "\"value\":" =
      0x22 :: (appendStringAux (bytesOf "value").length (bytesOf "value") ++ [0x22, 0x3A]) := by
    decide
  have k2 : bytesOf ",\"status\":" =
      0x2C :: 0x22 :: (appendStringAux (bytesOf "status").length (bytesOf "status") ++
        [0x22, 0x3A]) := by
    decide
  have k3 : bytesOf ",\"trend\":" =
      0x2C :: 0x22 :: (appendStringAux (bytesOf "trend").length (bytesOf "trend") ++
        [0x22, 0x3A]) := by
    decide
  simp only [jsonMarshal, appendString, k1, k2, k3, List.cons_append, List.append_assoc,
    List.nil_append]

/-- The decoder's scan of what `jsonMarshal` wrote: an object of three members. -/
theorem parseJSON_jsonMarshal (r : DexcomData) (hs : validUTF8 r.Status = true)
    (ht : validUTF8 r.Trend = true) :
    parseJSON (jsonMarshal r).1 =
      some (JSON.object [(bytesOf "value", JSON.number (formatInt r.Sgv)),
        (bytesOf "status", JSON.string r.Status), (bytesOf "trend", JSON.string r.Trend)]) := by
  have hlen : ∃ k, (jsonMarshal r).1.length + 1 = k + 5 := by
    refine ⟨(jsonMarshal r).1.length - 4, ?_⟩
    have : 4 ≤ (jsonMarshal r).1.length := by
      rw [jsonMarshal_text]
      simp only [List.length_cons, List.length_append]
      omega
    omega
  obtain ⟨k, hk⟩ := hlen
  unfold parseJSON
  rw [hk, jsonMarshal_text]
  have m3 := parseMembers_last (k + 1) 1 (bytesOf "trend") _ [] _ (by decide)
    (parseValue_string k 1 r.Trend [0x7D] ht)
  have v2 := parseValue_string (k + 1) 1 r.Status
    (0x2C :: 0x22 :: (appendStringAux (bytesOf "trend").length (bytesOf "trend") ++
        0x22 :: 0x3A :: 0x22 :: (appendStringAux r.Trend.length r.Trend ++
        0x22 :: [0x7D]))) hs
  have m2 := parseMembers_more (k + 2) 1 (bytesOf "status") _ _ _ (by decide) v2
  rw [m3] at m2
  have v1 := parseValue_number (k + 2) 1 r.Sgv
    (0x22 :: (appendStringAux (bytesOf "status").length (bytesOf "status") ++
        0x22 :: 0x3A :: 0x22 :: (appendStringAux r.Status.length r.Status ++
        0x22 :: 0x2C :: 0x22 :: (appendStringAux (bytesOf "trend").length (bytesOf "trend") ++
        0x22 :: 0x3A :: 0x22 :: (appendStringAux r.Trend.length r.Trend ++
        0x22 :: [0x7D])))))
  have m1 := parseMembers_more (k + 3) 1 (bytesOf "value") _ _ _ (by decide) v1
  rw [m2] at m1
  simp [parseValue, skipSpace, isSpace, maxNestingDepth, m1]

/-- C7, as the claim states it, fails: a reading whose status is the single byte FF (a Go string
that is not valid UTF-8), written to its JSON text and read back, has the status U+FFFD, the
three bytes EF BF BD, and so is not the reading that was written. -/
theorem jsonUnmarshal_jsonMarshal_invalid_utf8 :
    jsonUnmarshal (jsonMarshal { Sgv := 150, Status := [0xFF], Trend := bytesOf "flat" }).1 =
        Except.ok (some { Sgv := 150, Status := [0xEF, 0xBF, 0xBD], Trend := bytesOf "flat" }) ∧
      jsonUnmarshal (jsonMarshal { Sgv := 150, Status := [0xFF], Trend := bytesOf "flat" }).1 ≠
        Except.ok (some { Sgv := 150, Status := [0xFF], Trend := bytesOf "flat" }) := by
  decide

/-- C7, amended: for every reading whose status and trend are valid UTF-8 (the value being a Go
`int`, that is within 64 bits), `json.Marshal` gives no error and `json.Unmarshal` of the text it
wrote gives a reading equal to the first in value, status and trend. -/
theorem jsonUnmarshal_jsonMarshal (r : DexcomData)
    (hlo : -(2 : Int) ^ 63 ≤ r.Sgv) (hhi : r.Sgv < (2 : Int) ^ 63)
    (hs : validUTF8 r.Status = true) (ht : validUTF8 r.Trend = true) :
    (jsonMarshal r).2 = none ∧ jsonUnmarshal (jsonMarshal r).1 = Except.ok (some r) := by
  refine ⟨rfl, ?_⟩
  have f1 : fieldFor (bytesOf "value") = some StructField.Sgv := by decide
  have f2 : fieldFor (bytesOf "status") = some StructField.Status := by decide
  have f3 : fieldFor (bytesOf "trend") = some StructField.Trend := by decide
  simp only [jsonUnmarshal, parseJSON_jsonMarshal r hs ht, decodeMembers, f1, f2, f3, storeField,
    parseInt64_formatInt r.Sgv hlo hhi]

/-- Witness of C7, amended: the reading 150, "ok", "flat" of the test. -/
theorem jsonUnmarshal_jsonMarshal_witness :
    (jsonMarshal flat150).2 = none ∧
      jsonUnmarshal (jsonMarshal flat150).1 = Except.ok (some flat150) :=
  jsonUnmarshal_jsonMarshal flat150 (by decide) (by decide) (by decide) (by decide)

/-! ### The request -/

/-- C8 (the code does not do this): for every clock, `Format` and transport, the URL that
`GetEstimatedGlucoseValues` hands to the transport is the bare endpoint
`https://api.dexcom.com/v3/users/self/egvs`: the parameters `startDate` and `endDate` are added
to the value that `Query` returned and never written back to the URL, so the URL has no query
at all. -/
theorem GetEstimatedGlucoseValues_url_has_no_query (api : dexcomAPI) :
    api.requestURL (bytesOf "egvs") =
        Except.ok (bytesOf "https://api.dexcom.com/v3/users/self/egvs") ∧
      api.GetEstimatedGlucoseValues =
        api.OauthResult (bytesOf "https://api.dexcom.com/v3/users/self/egvs") ∧
      0x3F ∉ bytesOf "https://api.dexcom.com/v3/users/self/egvs" := by
  have h : api.requestURL (bytesOf "egvs") =
      Except.ok (bytesOf "https://api.dexcom.com/v3/users/self/egvs") := by
    unfold dexcomAPI.requestURL
    rfl
  refine ⟨h, ?_, by decide⟩
  simp only [dexcomAPI.GetEstimatedGlucoseValues, dexcomAPI.getDexcomAPIData, h]

/-! ### The errors of `getResult` -/

/-- C10, as the claim states it, fails: with an empty cache, an API that replies with no record
and an API that fails with an error of the text "no records found" make `getResult` return the
same, no reading and an `errors.New` error of that text. -/
theorem getResult_no_records_not_distinct :
    Go.map Prod.fst (newDexcom [] [] (some { Records := [] }, none)).getResult =
        Go.ret (none, some (errorsNew (bytesOf "no records found"))) ∧
      Go.map Prod.fst
          (newDexcom [] [] (none, some (errorsNew (bytesOf "no records found")))).getResult =
        Go.ret (none, some (errorsNew (bytesOf "no records found"))) := by
  decide

/-- C10, amended: when `getResult` reaches the remote call and the call succeeds with no record,
`getResult` returns no reading and the error `errors.New("no records found")`; the result differs
from the result of a run whose remote call failed with the error `e` exactly when `e` is not
itself an `errors.New` error of the text "no records found". -/
theorem getResult_no_records (d : Dexcom)
    (hreach : d.props.GetInt Property.CacheTimeout 5 ≤ 0 ∨
      (d.getCacheValue (bytesOf "dexcom")).1.2 ≠ none)
    (hapi : d.api = (some { Records := [] }, none)) :
    (∃ d1, d.getResult =
        Go.ret ((none, some (errorsNew (bytesOf "no records found"))), d1)) ∧
      ∀ (d2 : Dexcom) (e : GoError),
        (d2.props.GetInt Property.CacheTimeout 5 ≤ 0 ∨
          (d2.getCacheValue (bytesOf "dexcom")).1.2 ≠ none) →
        d2.api.2 = some e →
        (Go.map Prod.fst d2.getResult ≠ Go.map Prod.fst d.getResult ↔
          e ≠ errorsNew (bytesOf "no records found")) := by
  have hd : ∃ d1, d.getResult =
      Go.ret ((none, some (errorsNew (bytesOf "no records found"))), d1) := by
    rcases getResult_reaches d hreach with ⟨_, hres⟩ | ⟨_, hres⟩
    · exact ⟨_, by rw [hres, fetch_empty d _ hapi]⟩
    · have hf := fetch_empty { d with calls := d.calls ++ [Call.cacheGet (bytesOf "dexcom")] }
        (d.props.GetInt Property.CacheTimeout 5) hapi
      exact ⟨_, by rw [hres, hf]⟩
  refine ⟨hd, ?_⟩
  intro d2 e hreach2 hapi2
  obtain ⟨d1, h1⟩ := hd
  rw [getResult_of_remote_error d2 e hreach2 hapi2, h1]
  simp only [Go.map, ne_eq, Go.ret.injEq, Prod.mk.injEq, true_and, Option.some.injEq]

/-- Witness of C10, amended: the case "Empty array" of the test against the case "Error in
retrieving data". -/
theorem getResult_no_records_witness :
    (∃ d1, (newDexcom [] [] (some { Records := [] }, none)).getResult =
        Go.ret ((none, some (errorsNew (bytesOf "no records found"))), d1)) ∧
      ∀ (d2 : Dexcom) (e : GoError),
        (d2.props.GetInt Property.CacheTimeout 5 ≤ 0 ∨
          (d2.getCacheValue (bytesOf "dexcom")).1.2 ≠ none) →
        d2.api.2 = some e →
        (Go.map Prod.fst d2.getResult ≠
            Go.map Prod.fst (newDexcom [] [] (some { Records := [] }, none)).getResult ↔
          e ≠ errorsNew (bytesOf "no records found")) :=
  getResult_no_records (newDexcom [] [] (some { Records := [] }, none)) (Or.inr (by decide)) rfl

/-! ### The order of the calls of `getResult` -/

/-- What `getResult` does on a cache hit: it returns what the payload decodes to. -/
theorem getResult_hit (d : Dexcom) (val : GoString) (data : Option DexcomData)
    (httl : 0 < d.props.GetInt Property.CacheTimeout 5)
    (hget : d.env.cache.Get (bytesOf "dexcom") = (val, true))
    (hdec : jsonUnmarshal val = Except.ok data) :
    d.getResult =
      Go.ret ((data, none), { d with calls := d.calls ++ [Call.cacheGet (bytesOf "dexcom")] }) := by
  simp only [Dexcom.getResult, gt_iff_lt, httl, if_true, Dexcom.getCacheValue, hget, hdec]

/-- The calls of `fetch`: the remote call, followed by one write to the cache exactly when the
cache is on and the reply has a record. -/
theorem fetch_calls (d : Dexcom) (ttl : Int) (res : Option DexcomData × Option GoError)
    (d1 : Dexcom) (h : d.fetch ttl = Go.ret (res, d1)) :
    (d1 = { d with calls := d.calls ++ [Call.GetEstimatedGlucoseValues] }) ∨
      (0 < ttl ∧ ∃ r rest, d.api = (some { Records := r :: rest }, none) ∧
        res = (some r, none) ∧
        d1 = { d with
          env := { cache := d.env.cache.Set (bytesOf "dexcom") (jsonMarshal r).1 ttl }
          calls := (d.calls ++ [Call.GetEstimatedGlucoseValues]) ++
            [Call.cacheSet (bytesOf "dexcom") (jsonMarshal r).1 ttl] }) := by
  have hpair : d.api = (d.api.1, d.api.2) := rfl
  cases hq : d.api.2 with
  | some e =>
    left
    rw [fetch_error d ttl e hq] at h
    injection h with h; injection h with _ h; exact h.symm
  | none =>
    cases hp : d.api.1 with
    | none =>
      exfalso
      rw [hq, hp] at hpair
      simp only [Dexcom.fetch, hpair] at h
      exact Go.noConfusion h
    | some recs =>
      rw [hq, hp] at hpair
      rcases recs with ⟨l⟩
      cases l with
      | nil =>
        left
        rw [fetch_empty d ttl hpair] at h
        injection h with h; injection h with _ h; exact h.symm
      | cons r rest =>
        by_cases httl : 0 < ttl
        · right
          rw [fetch_records d ttl r rest httl hpair] at h
          injection h with h
          injection h with h1 h2
          exact ⟨httl, r, rest, hpair, h1.symm, h2.symm⟩
        · left
          have hnot : ¬ ttl > 0 := httl
          simp only [Dexcom.fetch, hpair, if_neg hnot] at h
          injection h with h; injection h with _ h
          rw [← h, hpair]

/-- C11: in a call of `getResult` that returns, the cache is written at most once; a write
happens only when the cache timeout is above zero and the remote call of this same call replied
with at least one record, it comes last, after the read and the remote call, and its payload is
the whole JSON text of the first record, never empty; with a cache timeout above zero the first
call made is the cache read under "dexcom", so that it precedes any remote call. -/
theorem getResult_cache_protocol (d : Dexcom) (res : Option DexcomData × Option GoError)
    (d1 : Dexcom) (h : d.getResult = Go.ret (res, d1)) :
    ∃ cs : List Call, d1.calls = d.calls ++ cs ∧
      (cacheWrites cs).length ≤ 1 ∧
      (∀ c ∈ cacheWrites cs,
        0 < d.props.GetInt Property.CacheTimeout 5 ∧
          ∃ r rest, d.api = (some { Records := r :: rest }, none) ∧ res = (some r, none) ∧
            c = Call.cacheSet (bytesOf "dexcom") (jsonMarshal r).1
              (d.props.GetInt Property.CacheTimeout 5) ∧
            (jsonMarshal r).1 ≠ [] ∧
            cs = [Call.cacheGet (bytesOf "dexcom"), Call.GetEstimatedGlucoseValues, c]) ∧
      (0 < d.props.GetInt Property.CacheTimeout 5 →
        cs.head? = some (Call.cacheGet (bytesOf "dexcom"))) ∧
      (remoteCalls cs ≤ 1 ∧ (cacheReads cs).length ≤ 1) ∧
      (cacheWrites cs = [] → d1.env.cache = d.env.cache) := by
  by_cases httl : 0 < d.props.GetInt Property.CacheTimeout 5
  · have hsnd := getCacheValue_snd d (bytesOf "dexcom")
    rcases hc : d.getCacheValue (bytesOf "dexcom") with ⟨⟨data, err⟩, dc⟩
    rw [hc] at hsnd
    simp only at hsnd
    cases err with
    | none =>
      simp only [Dexcom.getResult, gt_iff_lt, httl, if_true, hc] at h
      injection h with h
      injection h with _ h2
      subst h2
      subst hsnd
      refine ⟨[Call.cacheGet (bytesOf "dexcom")], rfl, ?_, ?_, ?_, ?_, ?_⟩
      · simp [cacheWrites]
      · intro c hmem
        simp [cacheWrites] at hmem
      · intro _; rfl
      · simp [remoteCalls, cacheReads]
      · intro _; rfl
    | some e =>
      simp only [Dexcom.getResult, gt_iff_lt, httl, if_true, hc] at h
      subst hsnd
      rcases fetch_calls _ _ res d1 h with h1 | ⟨_, r, rest, hapi, hres, h1⟩
      · subst h1
        refine ⟨[Call.cacheGet (bytesOf "dexcom"), Call.GetEstimatedGlucoseValues], ?_, ?_, ?_,
          ?_, ?_, ?_⟩
        · simp
        · simp [cacheWrites]
        · intro c hmem
          simp [cacheWrites] at hmem
        · intro _; rfl
        · simp [remoteCalls, cacheReads]
        · intro _; rfl
      · subst h1
        have hne : (jsonMarshal r).1 ≠ [] := by
          rw [jsonMarshal_text]
          simp
        refine ⟨[Call.cacheGet (bytesOf "dexcom"), Call.GetEstimatedGlucoseValues,
          Call.cacheSet (bytesOf "dexcom") (jsonMarshal r).1
            (d.props.GetInt Property.CacheTimeout 5)], ?_, ?_, ?_, ?_, ?_, ?_⟩
        · simp
        · simp [cacheWrites]
        · intro c hmem
          simp only [cacheWrites, List.filter_cons_of_neg, List.filter_cons_of_pos,
            List.filter_nil, List.mem_singleton, not_false_eq_true, reduceCtorEq,
            Bool.false_eq_true] at hmem
          subst hmem
          exact ⟨httl, r, rest, hapi, hres, rfl, hne, rfl⟩
        · intro _; rfl
        · simp [remoteCalls, cacheReads]
        · intro hw
          simp [cacheWrites] at hw
  · have hnot : ¬ d.props.GetInt Property.CacheTimeout 5 > 0 := httl
    simp only [Dexcom.getResult, if_neg hnot] at h
    rcases fetch_calls _ _ res d1 h with h1 | ⟨hpos, _⟩
    · subst h1
      refine ⟨[Call.GetEstimatedGlucoseValues], rfl, ?_, ?_, ?_, ?_, ?_⟩
      · simp [cacheWrites]
      · intro c hmem
        simp [cacheWrites] at hmem
      · intro hpos; exact absurd hpos httl
      · simp [remoteCalls, cacheReads]
      · intro _; rfl
    · exact absurd hpos httl

/-- Witness of C11: the first case of the test, in which `getResult` reads the cache, calls the
API and writes the cache. -/
theorem getResult_cache_protocol_witness :
    ∃ cs : List Call, fetchedFlat150.calls = [] ++ cs ∧
      (cacheWrites cs).length ≤ 1 ∧
      (∀ c ∈ cacheWrites cs,
        0 < Properties.GetInt [] Property.CacheTimeout 5 ∧
          ∃ r rest, ((some { Records := [flat150] }, none) : DexcomAPI) =
              (some { Records := r :: rest }, none) ∧
            ((some flat150, none) : Option DexcomData × Option GoError) = (some r, none) ∧
            c = Call.cacheSet (bytesOf "dexcom") (jsonMarshal r).1
              (Properties.GetInt [] Property.CacheTimeout 5) ∧
            (jsonMarshal r).1 ≠ [] ∧
            cs = [Call.cacheGet (bytesOf "dexcom"), Call.GetEstimatedGlucoseValues, c]) ∧
      (0 < Properties.GetInt [] Property.CacheTimeout 5 →
        cs.head? = some (Call.cacheGet (bytesOf "dexcom"))) ∧
      (remoteCalls cs ≤ 1 ∧ (cacheReads cs).length ≤ 1) ∧
      (cacheWrites cs = [] → fetchedFlat150.env.cache = []) :=
  getResult_cache_protocol (newDexcom [] [] (some { Records := [flat150] }, none))
    (some flat150, none) fetchedFlat150 (by decide)

/-! ### A reading that is `nil` -/

/-- The payloads that `json.Unmarshal` accepts while leaving the pointer `nil`: the JSON text
`null`, white space around it allowed. -/
theorem jsonUnmarshal_eq_ok_none (val : GoString) :
    jsonUnmarshal val = Except.ok none ↔ ∃ rest, parseValue (val.length + 1) 0 val =
      some (JSON.null, rest) ∧ skipSpace rest = [] := by
  unfold jsonUnmarshal parseJSON
  constructor
  · intro h
    cases hp : parseValue (val.length + 1) 0 val with
    | none => rw [hp] at h; exact absurd h (by simp)
    | some x =>
      obtain ⟨v, rest⟩ := x
      rw [hp] at h
      by_cases hs : skipSpace rest = []
      · refine ⟨rest, ?_, hs⟩
        simp only [hs, if_true] at h
        cases v with
        | null => rfl
        | object members =>
          exfalso
          simp only at h
          split at h <;> exact absurd h (by simp)
        | bool b => exact absurd h (by simp)
        | number lit => exact absurd h (by simp)
        | string s => exact absurd h (by simp)
        | array items => exact absurd h (by simp)
      · simp only [hs, if_false] at h
        exact absurd h (by simp)
  · rintro ⟨rest, hp, hs⟩
    simp [hp, hs]

/-- The one way for `getResult` to return no reading and no error: the cache is on and finds
under "dexcom" a payload that `json.Unmarshal` accepts while leaving the pointer `nil`. -/
theorem getResult_nil_nil (d d1 : Dexcom)
    (h : d.getResult = Go.ret ((none, none), d1)) :
    0 < d.props.GetInt Property.CacheTimeout 5 ∧
      (d.env.cache.Get (bytesOf "dexcom")).2 = true ∧
      jsonUnmarshal (d.env.cache.Get (bytesOf "dexcom")).1 = Except.ok none := by
  have hfetch : ∀ (d0 : Dexcom) (ttl : Int), d0.fetch ttl ≠ Go.ret ((none, none), d1) := by
    intro d0 ttl hf
    have hm := fetch_result d0 ttl
    rw [hf] at hm
    simp only [Go.map] at hm
    split at hm
    · exact absurd hm (by simp)
    · exact absurd hm (by simp)
    · split at hm <;> exact absurd hm (by simp)
  by_cases httl : 0 < d.props.GetInt Property.CacheTimeout 5
  · refine ⟨httl, ?_⟩
    simp only [Dexcom.getResult, gt_iff_lt, httl, if_true, Dexcom.getCacheValue] at h
    rcases hg : d.env.cache.Get (bytesOf "dexcom") with ⟨val, found⟩
    rw [hg] at h
    cases found with
    | false =>
      simp only at h
      exact absurd h (hfetch _ _)
    | true =>
      simp only at h
      cases hu : jsonUnmarshal val with
      | error e =>
        rw [hu] at h
        simp only at h
        exact absurd h (hfetch _ _)
      | ok data =>
        rw [hu] at h
        simp only at h
        injection h with h
        injection h with h1 _
        injection h1 with h1 _
        subst h1
        exact ⟨rfl, rfl⟩
  · have hnot : ¬ d.props.GetInt Property.CacheTimeout 5 > 0 := httl
    simp only [Dexcom.getResult, if_neg hnot] at h
    exact absurd h (hfetch _ _)

/-- C12 (the code does not do this): with the default cache timeout and a cache that finds the
JSON text `null` under "dexcom", `json.Unmarshal` succeeds and leaves the pointer `nil`, so
`getResult` returns no reading and no error, whatever the API would reply, and `Enabled`
panics when it dereferences the result. -/
theorem Enabled_panics_on_null_payload :
    jsonUnmarshal (bytesOf "null") = Except.ok none ∧
      Go.map Prod.fst (newDexcom [] cacheNull (some { Records := [flat150] }, none)).getResult =
        Go.ret (none, none) ∧
      (newDexcom [] cacheNull (some { Records := [flat150] }, none)).Enabled = Go.panic := by
  decide

/-! ### Two availability checks in a row -/

/-- The payload of a reading with valid UTF-8 strings decodes to that reading. -/
theorem jsonUnmarshal_payload (r : DexcomData)
    (hlo : -(2 : Int) ^ 63 ≤ r.Sgv) (hhi : r.Sgv < (2 : Int) ^ 63)
    (hs : validUTF8 r.Status = true) (ht : validUTF8 r.Trend = true) :
    jsonUnmarshal (jsonMarshal r).1 = Except.ok (some r) := by
  have f1 : fieldFor (bytesOf "value") = some StructField.Sgv := by decide
  have f2 : fieldFor (bytesOf "status") = some StructField.Status := by decide
  have f3 : fieldFor (bytesOf "trend") = some StructField.Trend := by decide
  simp only [jsonUnmarshal, parseJSON_jsonMarshal r hs ht, decodeMembers, f1, f2, f3, storeField,
    parseInt64_formatInt r.Sgv hlo hhi]

/-- What `Enabled` does when `getResult` returns a reading. -/
theorem Enabled_of_getResult (d d1 : Dexcom) (r : DexcomData)
    (h : d.getResult = Go.ret ((some r, none), d1)) :
    d.Enabled = Go.ret (true,
      { d1 with
        toDexcomData := r
        TrendIcon := Dexcom.getTrendIcon { d1 with toDexcomData := r } }) := by
  simp only [Dexcom.Enabled, h]

/-- The icon depends on the trend alone. -/
theorem getTrendIcon_congr (d d1 : Dexcom) (h : d.Trend = d1.Trend) :
    d.getTrendIcon = d1.getTrendIcon := by
  simp only [Dexcom.getTrendIcon, h]

/-- C13, as the claim states it, fails: a first check misses the cache, fetches the record
`statusFF`, whose status is the byte FF, stores it and writes its payload; the following check
on the segment as the first left it finds that payload and makes no remote call, but stores the
status U+FFFD (bytes EF BF BD), not the status of the record. -/
theorem Enabled_twice_invalid_utf8 :
    (newDexcom [] [] (some { Records := [statusFF] }, none)).Enabled =
        Go.ret (true, afterStatusFF) ∧
      afterStatusFF.env.cache.Get (bytesOf "dexcom") = ((jsonMarshal statusFF).1, true) ∧
      Go.map (fun x => (x.1, x.2.Sgv, x.2.Status, x.2.Trend, remoteCalls x.2.calls))
          afterStatusFF.Enabled =
        Go.ret (true, 150, [0xEF, 0xBF, 0xBD], bytesOf "flat", remoteCalls afterStatusFF.calls) ∧
      afterStatusFF.Status = [0xFF] := by
  decide

/-- C13, amended: with a cache timeout above zero and a reading `r` whose status and trend are
valid UTF-8 (the value within 64 bits), if a call of `getResult` misses the cache, fetches
records of which `r` is the first and writes the payload of `r` under "dexcom", then a following
call in which the cache finds that payload returns `r` without a remote call, and the two
availability checks leave the same `Sgv`, `Status`, `Trend` and `TrendIcon`; the segment as the
first check left it is such a following call. -/
theorem Enabled_twice (d : Dexcom) (r : DexcomData) (rest : List DexcomData)
    (httl : 0 < d.props.GetInt Property.CacheTimeout 5)
    (hmiss : (d.env.cache.Get (bytesOf "dexcom")).2 = false ∨
      ∃ e, jsonUnmarshal (d.env.cache.Get (bytesOf "dexcom")).1 = Except.error e)
    (hapi : d.api = (some { Records := r :: rest }, none))
    (hlo : -(2 : Int) ^ 63 ≤ r.Sgv) (hhi : r.Sgv < (2 : Int) ^ 63)
    (hs : validUTF8 r.Status = true) (ht : validUTF8 r.Trend = true) :
    ∃ d1 e1, d.getResult = Go.ret ((some r, none), d1) ∧
      cacheWrites d1.calls = cacheWrites d.calls ++
        [Call.cacheSet (bytesOf "dexcom") (jsonMarshal r).1
          (d.props.GetInt Property.CacheTimeout 5)] ∧
      d.Enabled = Go.ret (true, e1) ∧ e1.toDexcomData = r ∧
      (∀ d2 : Dexcom, 0 < d2.props.GetInt Property.CacheTimeout 5 →
        d2.env.cache.Get (bytesOf "dexcom") = ((jsonMarshal r).1, true) →
        ∃ d3 e3, d2.getResult = Go.ret ((some r, none), d3) ∧
          remoteCalls d3.calls = remoteCalls d2.calls ∧
          d2.Enabled = Go.ret (true, e3) ∧
          remoteCalls e3.calls = remoteCalls d2.calls ∧
          e3.Sgv = e1.Sgv ∧ e3.Status = e1.Status ∧ e3.Trend = e1.Trend ∧
          e3.TrendIcon = e1.TrendIcon) ∧
      (0 < e1.props.GetInt Property.CacheTimeout 5 ∧
        e1.env.cache.Get (bytesOf "dexcom") = ((jsonMarshal r).1, true)) := by
  have hne : (d.getCacheValue (bytesOf "dexcom")).1.2 ≠ none := by
    unfold Dexcom.getCacheValue
    rcases hg : d.env.cache.Get (bytesOf "dexcom") with ⟨val, found⟩
    rw [hg] at hmiss
    rcases hmiss with h | ⟨e, h⟩
    · simp only at h
      subst h
      simp
    · simp only at h
      cases found with
      | false => simp
      | true => simp [h]
  rcases getResult_reaches d (Or.inr hne) with ⟨h0, _⟩ | ⟨_, hres⟩
  · omega
  · have hf := fetch_records { d with calls := d.calls ++ [Call.cacheGet (bytesOf "dexcom")] }
      _ r rest httl hapi
    rw [hf] at hres
    have hen := Enabled_of_getResult d _ r hres
    refine ⟨_, _, hres, ?_, hen, rfl, ?_, ?_⟩
    · simp [cacheWrites]
    · intro d2 httl2 hget2
      have hhit := getResult_hit d2 _ (some r) httl2 hget2 (jsonUnmarshal_payload r hlo hhi hs ht)
      have hen2 := Enabled_of_getResult d2 _ r hhit
      refine ⟨_, _, hhit, ?_, hen2, ?_, rfl, rfl, rfl, ?_⟩
      · simp [remoteCalls]
      · simp [remoteCalls]
      · exact getTrendIcon_congr _ _ rfl
    · refine ⟨httl, ?_⟩
      simp [Cache.Get, Cache.Set]

/-- Witness of C13, amended: the first case of the test, the record 150, "ok", "flat". -/
theorem Enabled_twice_witness :
    ∃ d1 e1, (newDexcom [] [] (some { Records := [flat150] }, none)).getResult =
        Go.ret ((some flat150, none), d1) ∧
      cacheWrites d1.calls = cacheWrites [] ++
        [Call.cacheSet (bytesOf "dexcom") (jsonMarshal flat150).1
          (Properties.GetInt [] Property.CacheTimeout 5)] ∧
      (newDexcom [] [] (some { Records := [flat150] }, none)).Enabled = Go.ret (true, e1) ∧
      e1.toDexcomData = flat150 ∧
      (∀ d2 : Dexcom, 0 < d2.props.GetInt Property.CacheTimeout 5 →
        d2.env.cache.Get (bytesOf "dexcom") = ((jsonMarshal flat150).1, true) →
        ∃ d3 e3, d2.getResult = Go.ret ((some flat150, none), d3) ∧
          remoteCalls d3.calls = remoteCalls d2.calls ∧
          d2.Enabled = Go.ret (true, e3) ∧
          remoteCalls e3.calls = remoteCalls d2.calls ∧
          e3.Sgv = e1.Sgv ∧ e3.Status = e1.Status ∧ e3.Trend = e1.Trend ∧
          e3.TrendIcon = e1.TrendIcon) ∧
      (0 < e1.props.GetInt Property.CacheTimeout 5 ∧
        e1.env.cache.Get (bytesOf "dexcom") = ((jsonMarshal flat150).1, true)) :=
  Enabled_twice (newDexcom [] [] (some { Records := [flat150] }, none)) flat150 []
    (by decide) (Or.inl (by decide)) rfl (by decide) (by decide) (by decide) (by decide)
